import Mathlib

/-!
Verification development for the arbeitsamt-scraper repository.

The TypeScript sources are shallowly embedded as Lean definitions:

* `src/misc/postal-code.ts`  → `getPostalCodeFromAddress`
* `src/misc/request.ts`      → `exponentialBackoff`
* `src/misc/array.ts`        → `groupBy`
* `src/crawler.ts`           → `goto` (navigation retry loop, health probe,
  page recreation), over an environment giving each attempt's outcome
* `src/arbeitsagentur-crawler.ts` → `readArbeitsagenturPosting`,
  `loadNextPage`, `addCompanyData` / `enrichPosting`, `readPostings`

Asynchronous browser interaction is modelled by explicit environments
(functions from identifiers / attempt numbers to outcomes); fallible
operations return `Except`.  JavaScript strings and numbers are modelled
with Lean `String` / `Nat` / `Int`; the few places where JS coerces a
string to a number are modelled by `jsPlus`, which is exact on
optionally-signed integer literals (the inputs that occur in the crawl)
and maps all other strings to `none` (NaN); fractional JS numbers do not
occur in any claim and are not modelled.
-/

set_option autoImplicit false

set_option maxHeartbeats 1000000

namespace ArbeitsamtScraper

/-! ## JavaScript string/number semantics helpers -/

/-- JS `s.slice(a, b)` on a string (for the in-range ASCII inputs used by the
crawler: clipping at the end of the string, empty result when `b ≤ a`). -/
def jsSlice (s : String) (a b : Nat) : String :=
  String.mk ((s.toList.drop a).take (b - a))

/-- Base-10 value of a list of digit characters, as computed by JS
`parseInt` / `Number` on an all-digit string. -/
def digitsToNat (l : List Char) : Nat :=
  l.foldl (fun acc c => acc * 10 + (c.toNat - 48)) 0

/-- JS `s.trim()`: strip whitespace from both ends (executable, list
based; the whitespace classes that occur in the crawled pages are the
ASCII ones recognized by `Char.isWhitespace`). -/
def jsTrim (s : String) : String :=
  String.mk (((s.toList.dropWhile Char.isWhitespace).reverse.dropWhile Char.isWhitespace).reverse)

/-- JS nullish coalescing `a ?? b`. -/
def jsNullish {α : Type} (a b : Option α) : Option α :=
  match a with
  | some v => some v
  | none => b

/-- JS unary plus (string-to-number coercion), restricted to the modelled
domain: the empty/whitespace string is `0`, optionally-signed digit strings
are their value, everything else is `none` (NaN). -/
def jsPlus (s : String) : Option Int :=
  let t := jsTrim s
  if t = "" then some 0
  else if t.toList.all Char.isDigit then some (digitsToNat t.toList)
  else if t.toList.head? = some '-' ∧ t.toList.tail ≠ [] ∧ t.toList.tail.all Char.isDigit then
    some (-(digitsToNat t.toList.tail : Int))
  else if t.toList.head? = some '+' ∧ t.toList.tail ≠ [] ∧ t.toList.tail.all Char.isDigit then
    some (digitsToNat t.toList.tail)
  else none

/-- Split a character list at the first occurrence of `pat` (nonempty):
`some (before, after)`, or `none` when `pat` does not occur. -/
def splitFirstAt (pat : List Char) : List Char → Option (List Char × List Char)
  | [] => none
  | c :: rest =>
    if pat.isPrefixOf (c :: rest) then some ([], (c :: rest).drop pat.length)
    else
      match splitFirstAt pat rest with
      | some pp => some (c :: pp.1, pp.2)
      | none => none

/-- JS `s.replace(pat, rep)` with a string pattern: replaces only the first
occurrence. -/
def replaceOnce (s pat rep : String) : String :=
  match splitFirstAt pat.toList s.toList with
  | none => s
  | some pp => String.mk (pp.1 ++ rep.toList ++ pp.2)

/-- Truthiness of a JS `string | null | undefined` value: `null`, `undefined`
and `""` are falsy. -/
def jsTruthy (o : Option String) : Bool :=
  match o with
  | none => false
  | some s => !(s = "")

/-! ## src/misc/postal-code.ts -/

/-- First match of the regex `\d{5}` in a character list: the regex engine
tries to match five consecutive digits starting at each position, left to
right. -/
def findFiveDigits : List Char → Option (List Char)
  | [] => none
  | c :: rest =>
    if 5 ≤ (c :: rest).length ∧ ((c :: rest).take 5).all Char.isDigit then
      some ((c :: rest).take 5)
    else findFiveDigits rest

/-- Source `getPostalCodeFromAddress(address)`: `address?.match(/\d{5}/)`, `null` if
no match, else `parseInt(match[0], 10)`. -/
def getPostalCodeFromAddress (address : Option String) : Option Nat :=
  match address with
  | none => none
  | some s => (findFiveDigits s.toList).map digitsToNat

/-- Does the regex `/, \d{4,}/` match at the head of this character list?
(a comma, a space, then at least four digits). -/
def isCommaDigitsAt : List Char → Bool
  | ',' :: ' ' :: rest => decide (4 ≤ rest.length) && (rest.take 4).all Char.isDigit
  | _ => false

/-- The part of the string before the first match of `/, \d{4,}/` —
JS `s.split(/, \d{4,}/)[0]`. -/
def beforeCommaDigits : List Char → List Char
  | [] => []
  | c :: rest =>
    if isCommaDigitsAt (c :: rest) then [] else c :: beforeCommaDigits rest

/-! ## src/misc/request.ts — `exponentialBackoff`

The retried async function is modelled by an environment
`fn : Nat → Except E T` giving the outcome of its `k`-th invocation.
The result records the value returned or thrown, together with how many
times `fn` was invoked.  The thrown value is an `Option E` because the
`error` local starts out uninitialized (`undefined`, modelled as `none`)
and the post-loop `throw error` can throw it that way. -/

structure BackoffResult (E T : Type) where
  result : Except (Option E) T
  calls : Nat
deriving Repr

/-- One pass of the `while (attempt < maxRetries)` loop, with
`remaining = maxRetries - attempt` iterations left and `lastErr` the current
value of the `error` local.  `remaining = 0` is the post-loop
`throw error`.  Inside the loop, `attempt === maxRetries - 1` is exactly
`remaining = 1`. -/
def backoffGo {E T : Type} (fn : Nat → Except E T) : Nat → Nat → Option E → BackoffResult E T
  | _, 0, lastErr => ⟨.error lastErr, 0⟩
  | attempt, r + 1, _ =>
    match fn attempt with
    | .ok v => ⟨.ok v, 1⟩
    | .error e =>
      if r = 0 then ⟨.error (some e), 1⟩
      else
        let rest := backoffGo fn (attempt + 1) r (some e)
        ⟨rest.result, rest.calls + 1⟩

/-- Source `exponentialBackoff(fn, maxRetries, delay)`.  `maxRetries` is kept as an
`Int` because the source accepts any number; the loop runs
`max maxRetries 0` times.  The `delay` argument only feeds the sleeps
between attempts and has no further effect on the result. -/
def exponentialBackoff {E T : Type} (fn : Nat → Except E T) (maxRetries : Int)
    (delay : Nat) : BackoffResult E T :=
  let _ := delay
  backoffGo fn 0 maxRetries.toNat none

/-! ## src/misc/array.ts — `groupBy`

A JS `Record` keyed by numbers is modelled as an association list with
distinct keys; `result[k].push(item)` appends to the (unique) entry with
key `k`, a fresh key is appended at the end. -/

def addToGroup {T : Type} : List (Nat × List T) → Nat → T → List (Nat × List T)
  | [], k, x => [(k, [x])]
  | (k', xs) :: rest, k, x =>
    if k' = k then (k', xs ++ [x]) :: rest
    else (k', xs) :: addToGroup rest k x

/-- The `array.reduce((result, item, index) => ...)` loop: `i` is the running
`index` argument of the callback. -/
def groupByGo {T : Type} (getGroup : T → Nat → Nat) : List T → Nat → List (Nat × List T) → List (Nat × List T)
  | [], _, acc => acc
  | x :: xs, i, acc => groupByGo getGroup xs (i + 1) (addToGroup acc (getGroup x i) x)

/-- Source `groupBy(array, getGroup)` from `src/misc/array.ts`. -/
def groupBy {T : Type} (xs : List T) (getGroup : T → Nat → Nat) : List (Nat × List T) :=
  groupByGo getGroup xs 0 []

/-! ### Basic lemmas about the helpers -/

theorem digitsToNat_aux_lt (l : List Char) (h : ∀ c ∈ l, c.isDigit = true) :
    ∀ init : Nat, l.foldl (fun acc c => acc * 10 + (c.toNat - 48)) init < 10 ^ l.length * (init + 1) := by
  induction l with
  | nil => intro init; simp
  | cons c rest ih =>
    intro init
    have hc : c.isDigit = true := h c (List.mem_cons_self c rest)
    have hrest : ∀ x ∈ rest, x.isDigit = true := fun x hx => h x (List.mem_cons_of_mem c hx)
    have hd : c.toNat - 48 ≤ 9 := by
      simp [Char.isDigit] at hc
      have : c.val.toNat ≤ 57 := by exact_mod_cast hc.2
      simp [Char.toNat]
      omega
    have := ih hrest (init * 10 + (c.toNat - 48))
    calc (c :: rest).foldl (fun acc c => acc * 10 + (c.toNat - 48)) init
        = rest.foldl (fun acc c => acc * 10 + (c.toNat - 48)) (init * 10 + (c.toNat - 48)) := rfl
      _ < 10 ^ rest.length * (init * 10 + (c.toNat - 48) + 1) := this
      _ ≤ 10 ^ rest.length * (init * 10 + 10) := by
          exact Nat.mul_le_mul_left _ (by omega)
      _ = 10 ^ (c :: rest).length * (init + 1) := by
          rw [List.length_cons, pow_succ]
          ring

theorem digitsToNat_lt (l : List Char) (h : ∀ c ∈ l, c.isDigit = true) :
    digitsToNat l < 10 ^ l.length := by
  have := digitsToNat_aux_lt l h 0
  simpa [digitsToNat] using this

theorem findFiveDigits_spec (l : List Char) (cs : List Char)
    (h : findFiveDigits l = some cs) : cs.length = 5 ∧ ∀ c ∈ cs, c.isDigit = true := by
  induction l with
  | nil => simp [findFiveDigits] at h
  | cons c rest ih =>
    rw [findFiveDigits] at h
    split at h
    · rename_i hcond
      obtain ⟨hlen, hdig⟩ := hcond
      have hcs : cs = (c :: rest).take 5 := by
        simpa using (Option.some.injEq _ _).mp h.symm
      subst hcs
      constructor
      · simpa [List.length_take] using hlen
      · intro x hx
        have := List.all_eq_true.mp hdig x hx
        simpa using this
    · exact ih h

theorem getPostalCodeFromAddress_lt (a : Option String) (k : Nat)
    (h : getPostalCodeFromAddress a = some k) : k < 100000 := by
  match a with
  | none => simp [getPostalCodeFromAddress] at h
  | some s =>
    simp only [getPostalCodeFromAddress, Option.map_eq_some'] at h
    obtain ⟨cs, hcs, hk⟩ := h
    obtain ⟨hlen, hdig⟩ := findFiveDigits_spec _ _ hcs
    have := digitsToNat_lt cs hdig
    rw [hlen] at this
    omega

theorem foldl_digits_pos (l : List Char) :
    ∀ init : Nat, 0 < init → 0 < l.foldl (fun acc c => acc * 10 + (c.toNat - 48)) init := by
  induction l with
  | nil => intro init h; simpa using h
  | cons c rest ih =>
    intro init h
    rw [List.foldl_cons]
    exact ih _ (by omega)

theorem char_eq_zero_of_toNat (c : Char) (h : c.toNat = 48) : c = '0' :=
  Char.ext (UInt32.toNat.inj h)

theorem char_digit_toNat_ge (c : Char) (hc : c.isDigit = true) : 48 ≤ c.toNat := by
  simp [Char.isDigit] at hc
  have : (48 : Nat) ≤ c.val.toNat := by exact_mod_cast hc.1
  simpa [Char.toNat] using this

theorem digitsToNat_eq_zero_iff (l : List Char) (hdig : ∀ c ∈ l, c.isDigit = true) :
    (digitsToNat l = 0 ↔ ∀ c ∈ l, c = '0') := by
  induction l with
  | nil => simp [digitsToNat]
  | cons c rest ih =>
    have hc : c.isDigit = true := hdig c (List.mem_cons_self c rest)
    have hrest : ∀ x ∈ rest, x.isDigit = true := fun x hx => hdig x (List.mem_cons_of_mem c hx)
    have hge := char_digit_toNat_ge c hc
    by_cases h0 : c = '0'
    · subst h0
      have hz : ('0' : Char).toNat - 48 = 0 := by decide
      have : digitsToNat ('0' :: rest) = digitsToNat rest := by
        simp [digitsToNat, List.foldl_cons, hz]
      rw [this]
      constructor
      · intro h x hx
        rcases List.mem_cons.mp hx with h' | h'
        · exact h'
        · exact ((ih hrest).mp h) x h'
      · intro h
        exact (ih hrest).mpr (fun x hx => h x (List.mem_cons_of_mem _ hx))
    · have hgt : 0 < c.toNat - 48 := by
        rcases Nat.lt_or_ge 48 c.toNat with h' | h'
        · omega
        · exact absurd (char_eq_zero_of_toNat c (by omega)) h0
      have hpos : 0 < digitsToNat (c :: rest) := by
        have : digitsToNat (c :: rest)
            = rest.foldl (fun acc x => acc * 10 + (x.toNat - 48)) (c.toNat - 48) := by
          simp [digitsToNat, List.foldl_cons]
        rw [this]
        rcases rest with _ | ⟨d, ds⟩
        · simpa using hgt
        · exact foldl_digits_pos _ _ hgt
      constructor
      · intro h; omega
      · intro h; exact absurd (h c (List.mem_cons_self c rest)) h0

/-! ## src/crawler.ts — the `Crawler` session and its `goto` retry loop

A `Session` is the externally visible `Crawler` object: `id` is its
external identity (the object reference callers hold on to), `pageGen`
the generation of the private `page` handle, which `recreatePage`
replaces in place.

Each navigation attempt's interaction with the browser is summarized by
an `AttemptEnv`: whether the health probe (`isPageHealthy`) passes,
the outcome of the actual navigation (`Promise.race` of the navigation
and the crash listener; a failure carries the error message and whether
the message marks the page as crashed/closed/unhealthy), and whether a
`recreatePage` call issued during this iteration would succeed. -/

inductive NavFailKind
  | transient
  | crash
deriving DecidableEq, Repr

structure AttemptEnv where
  probeHealthy : Bool
  nav : Except (NavFailKind × String) Unit
  recreateOk : Bool

structure Session where
  id : Nat
  pageGen : Nat
deriving DecidableEq, Repr

inductive GotoEvent
  | probe (healthy : Bool)
  | navigate (ok : Bool)
  | recreate (ok : Bool)
deriving DecidableEq, Repr

/-- The terminal navigation error
`Failed to navigate to ${url} after ${maxRetries + 1} attempts: ${msg}`,
kept as its two data components. -/
structure NavError where
  lastMessage : String
  attempts : Nat
deriving DecidableEq, Repr

structure GotoResult where
  result : Except NavError Unit
  events : List GotoEvent
  session : Session

/-- Body of `goto`'s `for (attempt = 0; attempt <= maxRetries; attempt++)`
loop, with `remaining = maxRetries - attempt`; the source's
`attempt === maxRetries` test is exactly `remaining = 0`.

Per iteration: run the health probe; an unhealthy probe throws
`'Page is unhealthy, needs recreation'` (a message marked for
recreation) without navigating; otherwise navigate.  On failure at the
last attempt, throw the terminal `NavError`; otherwise recreate the
page when the failure is crash-like (`recreatePage` failures are caught
and logged), back off, and try again. -/
def gotoGo (env : Nat → AttemptEnv) (maxRetries : Nat) : Session → Nat → Nat → GotoResult
  | s, attempt, remaining =>
    let e := env attempt
    let failure : Option (String × Bool) :=
      if e.probeHealthy then
        match e.nav with
        | .ok _ => none
        | .error (kind, msg) => some (msg, kind = NavFailKind.crash)
      else some ("Page is unhealthy, needs recreation", true)
    let preEvents : List GotoEvent :=
      if e.probeHealthy then
        match e.nav with
        | .ok _ => [.probe true, .navigate true]
        | .error _ => [.probe true, .navigate false]
      else [.probe false]
    match failure with
    | none => ⟨.ok (), preEvents, s⟩
    | some (msg, needsRecreate) =>
      match remaining with
      | 0 => ⟨.error ⟨msg, maxRetries + 1⟩, preEvents, s⟩
      | r + 1 =>
        let recPair : Session × List GotoEvent :=
          if needsRecreate then
            if e.recreateOk then (⟨s.id, s.pageGen + 1⟩, [.recreate true])
            else (s, [.recreate false])
          else (s, [])
        let rest := gotoGo env maxRetries recPair.1 (attempt + 1) r
        ⟨rest.result, preEvents ++ recPair.2 ++ rest.events, rest.session⟩

/-- Source `Crawler.goto(url, useSpaNavigation, maxRetries)` over an attempt
environment: the loop starts at attempt 0 with `maxRetries` further
attempts allowed. -/
def goto (env : Nat → AttemptEnv) (maxRetries : Nat) (s : Session) : GotoResult :=
  gotoGo env maxRetries s 0 maxRetries

/-- An attempt fails when its health probe fails or its navigation errors. -/
def navFailed (e : AttemptEnv) : Bool :=
  if e.probeHealthy then
    match e.nav with
    | .ok _ => false
    | .error _ => true
  else true

/-- The error message the `catch` block sees for a failed attempt. -/
def failMsg (e : AttemptEnv) : String :=
  if e.probeHealthy then
    match e.nav with
    | .ok _ => ""
    | .error (_, m) => m
  else "Page is unhealthy, needs recreation"

/-- The events a failed attempt emits before its `catch` block runs. -/
def failEvents (e : AttemptEnv) : List GotoEvent :=
  if e.probeHealthy then
    match e.nav with
    | .ok _ => [.probe true, .navigate true]
    | .error _ => [.probe true, .navigate false]
  else [.probe false]

/-- Does the caught failure look crash/closed/unhealthy (so that the page
is recreated before the next retry)? -/
def needsRec (e : AttemptEnv) : Bool :=
  if e.probeHealthy then
    match e.nav with
    | .ok _ => false
    | .error (kind, _) => kind = NavFailKind.crash
  else true

/-- Effect of the (conditionally attempted) `recreatePage` on the session,
with the event it emits. -/
def recStep (e : AttemptEnv) (s : Session) : Session × List GotoEvent :=
  if needsRec e then
    if e.recreateOk then (⟨s.id, s.pageGen + 1⟩, [.recreate true])
    else (s, [.recreate false])
  else (s, [])

theorem recStep_id (e : AttemptEnv) (s : Session) : ((recStep e s).1).id = s.id := by
  unfold recStep
  split <;> [skip; rfl]
  split <;> rfl

theorem gotoGo_eq (env : Nat → AttemptEnv) (maxRetries : Nat) (s : Session)
    (attempt remaining : Nat) :
    gotoGo env maxRetries s attempt remaining =
      if navFailed (env attempt) = true then
        match remaining with
        | 0 => ⟨.error ⟨failMsg (env attempt), maxRetries + 1⟩, failEvents (env attempt), s⟩
        | r + 1 =>
          let p := recStep (env attempt) s
          let rest := gotoGo env maxRetries p.1 (attempt + 1) r
          ⟨rest.result, failEvents (env attempt) ++ p.2 ++ rest.events, rest.session⟩
      else ⟨.ok (), [.probe true, .navigate true], s⟩ := by
  rw [gotoGo]
  rcases hp : (env attempt).probeHealthy with _ | _ <;>
    rcases hn : (env attempt).nav with _ | v <;>
      rcases remaining with _ | r <;>
        simp [navFailed, failMsg, failEvents, needsRec, recStep, hp, hn]

theorem gotoGo_ok_iff (env : Nat → AttemptEnv) (maxRetries : Nat) :
    ∀ (r attempt : Nat) (s : Session),
      ((gotoGo env maxRetries s attempt r).result = .ok ()
        ↔ ∃ j, j ≤ r ∧ navFailed (env (attempt + j)) = false) := by
  intro r
  induction r with
  | zero =>
    intro attempt s
    rw [gotoGo_eq]
    by_cases h : navFailed (env attempt) = true
    · rw [if_pos h]
      dsimp only
      constructor
      · intro hc; cases hc
      · rintro ⟨j, hj, hfail⟩
        interval_cases j
        simp [h] at hfail
    · rw [if_neg h]
      simp only [Bool.not_eq_true] at h
      constructor
      · intro _; exact ⟨0, le_refl 0, by simpa using h⟩
      · intro _; rfl
  | succ r ih =>
    intro attempt s
    rw [gotoGo_eq]
    by_cases h : navFailed (env attempt) = true
    · rw [if_pos h]
      dsimp only
      rw [ih (attempt + 1)]
      constructor
      · rintro ⟨j, hj, hfail⟩
        exact ⟨j + 1, by omega, by rw [show attempt + (j + 1) = attempt + 1 + j by omega]; exact hfail⟩
      · rintro ⟨j, hj, hfail⟩
        match j with
        | 0 => simp at hfail; rw [hfail] at h; cases h
        | j' + 1 =>
          exact ⟨j', by omega, by rw [show attempt + 1 + j' = attempt + (j' + 1) by omega]; exact hfail⟩
    · rw [if_neg h]
      simp only [Bool.not_eq_true] at h
      constructor
      · intro _; exact ⟨0, by omega, by simpa using h⟩
      · intro _; rfl

theorem gotoGo_fail_all (env : Nat → AttemptEnv) (maxRetries : Nat) :
    ∀ (r attempt : Nat) (s : Session),
      (∀ j ≤ r, navFailed (env (attempt + j)) = true) →
      (gotoGo env maxRetries s attempt r).result
        = .error ⟨failMsg (env (attempt + r)), maxRetries + 1⟩ := by
  intro r
  induction r with
  | zero =>
    intro attempt s h
    have h0 : navFailed (env attempt) = true := by simpa using h 0 (le_refl 0)
    rw [gotoGo_eq]
    simp [h0]
  | succ r ih =>
    intro attempt s h
    have h0 : navFailed (env attempt) = true := by simpa using h 0 (by omega)
    rw [gotoGo_eq, if_pos h0]
    dsimp only
    have := ih (attempt + 1) (recStep (env attempt) s).1
      (fun j hj => by
        rw [show attempt + 1 + j = attempt + (j + 1) by omega]
        exact h (j + 1) (by omega))
    rw [show attempt + 1 + r = attempt + (r + 1) by omega] at this
    exact this

theorem gotoGo_session_id (env : Nat → AttemptEnv) (maxRetries : Nat) :
    ∀ (r attempt : Nat) (s : Session),
      ((gotoGo env maxRetries s attempt r).session).id = s.id := by
  intro r
  induction r with
  | zero =>
    intro attempt s
    rw [gotoGo_eq]
    by_cases h : navFailed (env attempt) = true <;> simp [h]
  | succ r ih =>
    intro attempt s
    rw [gotoGo_eq]
    by_cases h : navFailed (env attempt) = true
    · rw [if_pos h]
      dsimp only
      rw [ih (attempt + 1)]
      exact recStep_id _ _
    · simp [h]

theorem gotoGo_events_head (env : Nat → AttemptEnv) (maxRetries : Nat)
    (r attempt : Nat) (s : Session) :
    ∃ b t, (gotoGo env maxRetries s attempt r).events = .probe b :: t := by
  rw [gotoGo_eq]
  by_cases h : navFailed (env attempt) = true
  · rw [if_pos h]
    rcases hp : (env attempt).probeHealthy with _ | _ <;>
      rcases hn : (env attempt).nav with _ | v <;>
        rcases r with _ | r' <;>
          simp [failEvents, hp, hn]
  · simp [h]

/-- Trace well-formedness: every `navigate` event is immediately preceded
by a `probe true` event (the health probe runs before every navigation
attempt, and no navigation is attempted on a failed probe). -/
def navGuarded : List GotoEvent → Bool
  | [] => true
  | .navigate _ :: _ => false
  | .probe b :: .navigate _ :: rest => b && navGuarded rest
  | _ :: rest => navGuarded rest

theorem navGuarded_gotoGo (env : Nat → AttemptEnv) (maxRetries : Nat) :
    ∀ (r attempt : Nat) (s : Session),
      navGuarded (gotoGo env maxRetries s attempt r).events = true := by
  intro r
  induction r with
  | zero =>
    intro attempt s
    rw [gotoGo_eq]
    by_cases h : navFailed (env attempt) = true
    · rw [if_pos h]
      rcases hp : (env attempt).probeHealthy with _ | _ <;>
        rcases hn : (env attempt).nav with _ | v <;>
          simp [failEvents, hp, hn, navGuarded]
    · simp [h, navGuarded]
  | succ r ih =>
    intro attempt s
    rw [gotoGo_eq]
    by_cases h : navFailed (env attempt) = true
    · rw [if_pos h]
      dsimp only
      obtain ⟨b, t, hbt⟩ := gotoGo_events_head env maxRetries r (attempt + 1)
        (recStep (env attempt) s).1
      have hg : navGuarded (gotoGo env maxRetries (recStep (env attempt) s).1 (attempt + 1) r).events
          = true := ih (attempt + 1) _
      rw [hbt] at hg ⊢
      rcases hp : (env attempt).probeHealthy with _ | _ <;>
        rcases hn : (env attempt).nav with _ | v <;>
          simp only [failEvents, needsRec, recStep, hp, hn, Bool.false_eq_true, if_false,
            if_true] <;>
        rcases hrec : (env attempt).recreateOk with _ | _ <;>
          first
            | (split <;> simp [navGuarded, hg])
            | simp [navGuarded, hg]
    · simp [h, navGuarded]

theorem gotoGo_step_fail_trans (env : Nat → AttemptEnv) (maxRetries : Nat) (s : Session)
    (attempt r : Nat) (m : String)
    (hp : (env attempt).probeHealthy = true)
    (hn : (env attempt).nav = .error (NavFailKind.transient, m)) :
    gotoGo env maxRetries s attempt (r + 1) =
      ⟨(gotoGo env maxRetries s (attempt + 1) r).result,
       GotoEvent.probe true :: GotoEvent.navigate false
         :: (gotoGo env maxRetries s (attempt + 1) r).events,
       (gotoGo env maxRetries s (attempt + 1) r).session⟩ := by
  have hf : navFailed (env attempt) = true := by simp [navFailed, hp, hn]
  rw [gotoGo_eq, if_pos hf]
  simp [failEvents, recStep, needsRec, hp, hn]

theorem gotoGo_step_unhealthy (env : Nat → AttemptEnv) (maxRetries : Nat) (s : Session)
    (attempt r : Nat)
    (hp : (env attempt).probeHealthy = false)
    (hrec : (env attempt).recreateOk = true) :
    gotoGo env maxRetries s attempt (r + 1) =
      ⟨(gotoGo env maxRetries ⟨s.id, s.pageGen + 1⟩ (attempt + 1) r).result,
       GotoEvent.probe false :: GotoEvent.recreate true
         :: (gotoGo env maxRetries ⟨s.id, s.pageGen + 1⟩ (attempt + 1) r).events,
       (gotoGo env maxRetries ⟨s.id, s.pageGen + 1⟩ (attempt + 1) r).session⟩ := by
  have hf : navFailed (env attempt) = true := by simp [navFailed, hp]
  rw [gotoGo_eq, if_pos hf]
  simp [failEvents, recStep, needsRec, hp, hrec]

theorem gotoGo_step_ok (env : Nat → AttemptEnv) (maxRetries : Nat) (s : Session)
    (attempt r : Nat) (h : navFailed (env attempt) = false) :
    gotoGo env maxRetries s attempt r = ⟨.ok (), [.probe true, .navigate true], s⟩ := by
  rw [gotoGo_eq, if_neg (by simp [h])]

/-- C2: `goto` raises if and only if all `maxRetries + 1` attempts fail;
the terminal error carries the last attempt's failure message and the
attempt count `maxRetries + 1`; and a navigation that fails twice with a
transient error and then succeeds returns normally, with the session
unchanged (hence healthy: its trace ends in a passed probe and a
successful navigation, and no recreation happened). -/
theorem c2_goto_retry_exhaustion (env : Nat → AttemptEnv) (maxRetries : Nat) (s : Session) :
    ((∃ err, (goto env maxRetries s).result = .error err)
        ↔ ∀ k ≤ maxRetries, navFailed (env k) = true)
    ∧ ((∀ k ≤ maxRetries, navFailed (env k) = true) →
        (goto env maxRetries s).result
          = .error ⟨failMsg (env maxRetries), maxRetries + 1⟩)
    ∧ (∀ m0 m1 : String,
        (env 0).probeHealthy = true → (env 0).nav = .error (NavFailKind.transient, m0) →
        (env 1).probeHealthy = true → (env 1).nav = .error (NavFailKind.transient, m1) →
        (env 2).probeHealthy = true → (env 2).nav = .ok () →
        2 ≤ maxRetries →
        (goto env maxRetries s).result = .ok ()
          ∧ (goto env maxRetries s).session = s
          ∧ (goto env maxRetries s).events
              = [.probe true, .navigate false, .probe true, .navigate false,
                 .probe true, .navigate true]) := by
  refine ⟨?_, ?_, ?_⟩
  · constructor
    · rintro ⟨err, herr⟩ k hk
      by_contra hbad
      simp only [Bool.not_eq_true] at hbad
      have hok : (goto env maxRetries s).result = .ok () :=
        (gotoGo_ok_iff env maxRetries maxRetries 0 s).mpr ⟨k, hk, by simpa using hbad⟩
      rw [hok] at herr
      cases herr
    · intro hall
      refine ⟨⟨failMsg (env maxRetries), maxRetries + 1⟩, ?_⟩
      have := gotoGo_fail_all env maxRetries maxRetries 0 s (fun j hj => by simpa using hall j hj)
      simpa using this
  · intro hall
    have := gotoGo_fail_all env maxRetries maxRetries 0 s (fun j hj => by simpa using hall j hj)
    simpa using this
  · intro m0 m1 h0p h0n h1p h1n h2p h2n hmr
    obtain ⟨r, rfl⟩ : ∃ r, maxRetries = r + 2 := ⟨maxRetries - 2, by omega⟩
    have step0 := gotoGo_step_fail_trans env (r + 2) s 0 (r + 1) m0 h0p h0n
    have step1 := gotoGo_step_fail_trans env (r + 2) s 1 r m1 h1p h1n
    have step2 := gotoGo_step_ok env (r + 2) s 2 r (by simp [navFailed, h2p, h2n])
    have hgoto : goto env (r + 2) s = gotoGo env (r + 2) s 0 (r + 2) := rfl
    rw [hgoto, show r + 2 = (r + 1) + 1 from rfl, step0]
    rw [show (0 : Nat) + 1 = 1 from rfl, step1]
    rw [show (1 : Nat) + 1 = 2 from rfl, step2]
    exact ⟨rfl, rfl, rfl⟩

/-- Concrete witness for C2: two timeouts, then success, with
`maxRetries = 2` (three attempts). -/
def envC2 : Nat → AttemptEnv := fun k =>
  if k ≤ 1 then ⟨true, .error (NavFailKind.transient, "net::ERR_TIMED_OUT"), true⟩
  else ⟨true, .ok (), true⟩

theorem c2_witness :
    (goto envC2 2 ⟨0, 0⟩).result = .ok ()
      ∧ (goto envC2 2 ⟨0, 0⟩).session = ⟨0, 0⟩
      ∧ (goto envC2 2 ⟨0, 0⟩).events
          = [.probe true, .navigate false, .probe true, .navigate false,
             .probe true, .navigate true] :=
  (c2_goto_retry_exhaustion envC2 2 ⟨0, 0⟩).2.2 "net::ERR_TIMED_OUT" "net::ERR_TIMED_OUT"
    rfl rfl rfl rfl rfl rfl (by omega)

/-- C3: Before every navigation attempt `goto` runs the health probe
(in the event trace, every `navigate` is immediately preceded by a passed
probe, so an unhealthy probe suppresses navigation for that attempt);
an unhealthy first probe is followed by exactly one recreation and then
directly by the next attempt's probe; and the session's external identity
is preserved across any number of recreations. -/
theorem c3_goto_health_probe_recreation (env : Nat → AttemptEnv) (maxRetries : Nat)
    (s : Session) :
    navGuarded (goto env maxRetries s).events = true
    ∧ ((goto env maxRetries s).session).id = s.id
    ∧ ((env 0).probeHealthy = false → (env 0).recreateOk = true → 0 < maxRetries →
        ∃ b t, (goto env maxRetries s).events
          = .probe false :: .recreate true :: .probe b :: t) := by
  refine ⟨navGuarded_gotoGo env maxRetries maxRetries 0 s,
          gotoGo_session_id env maxRetries maxRetries 0 s, ?_⟩
  intro hp hrec hmr
  obtain ⟨r, rfl⟩ : ∃ r, maxRetries = r + 1 := ⟨maxRetries - 1, by omega⟩
  have step0 := gotoGo_step_unhealthy env (r + 1) s 0 r hp hrec
  obtain ⟨b, t, hbt⟩ := gotoGo_events_head env (r + 1) r 1 ⟨s.id, s.pageGen + 1⟩
  have hgoto : goto env (r + 1) s = gotoGo env (r + 1) s 0 (r + 1) := rfl
  rw [hgoto, step0]
  rw [show (0 : Nat) + 1 = 1 from rfl]
  exact ⟨b, t, by rw [hbt]⟩

/-- Concrete witness for C3: unhealthy probe on attempt 0, then success. -/
def envC3 : Nat → AttemptEnv := fun k =>
  if k = 0 then ⟨false, .ok (), true⟩ else ⟨true, .ok (), true⟩

theorem c3_witness :
    ∃ b t, (goto envC3 1 ⟨7, 0⟩).events
      = .probe false :: .recreate true :: .probe b :: t :=
  (c3_goto_health_probe_recreation envC3 1 ⟨7, 0⟩).2.2 rfl rfl (by omega)

/-! ## Properties of `exponentialBackoff`, and `loadNextPage` -/

theorem backoffGo_calls_le {E T : Type} (fn : Nat → Except E T) :
    ∀ (r attempt : Nat) (last : Option E), (backoffGo fn attempt r last).calls ≤ r := by
  intro r
  induction r with
  | zero => intro attempt last; exact Nat.le_refl 0
  | succ r ih =>
    intro attempt last
    rw [backoffGo]
    match hn : fn attempt with
    | .ok v => simp
    | .error e =>
      by_cases hr : r = 0
      · simp [hr]
      · simp only [if_neg hr]
        have := ih (attempt + 1) (some e)
        omega

theorem backoffGo_exhaust {E T : Type} (fn : Nat → Except E T) :
    ∀ (r attempt : Nat) (last : Option E),
      0 < r → (∀ j < r, ∃ e, fn (attempt + j) = .error e) →
      ∃ e', backoffGo fn attempt r last = ⟨.error e', r⟩ := by
  intro r
  induction r with
  | zero => intro attempt last h; omega
  | succ r ih =>
    intro attempt last _ hfail
    obtain ⟨e, he⟩ := hfail 0 (by omega)
    rw [backoffGo]
    simp only [Nat.add_zero] at he
    rw [he]
    dsimp only
    by_cases hr : r = 0
    · subst hr
      exact ⟨some e, by simp⟩
    · rw [if_neg hr]
      obtain ⟨e', hrec⟩ := ih (attempt + 1) (some e) (by omega)
        (fun j hj => by
          rw [show attempt + 1 + j = attempt + (j + 1) by omega]
          exact hfail (j + 1) (by omega))
      exact ⟨e', by simp [hrec]⟩

theorem backoffGo_first_success {E T : Type} (fn : Nat → Except E T) :
    ∀ (k r attempt : Nat) (last : Option E) (v : T),
      k < r → (∀ j < k, ∃ e, fn (attempt + j) = .error e) → fn (attempt + k) = .ok v →
      backoffGo fn attempt r last = ⟨.ok v, k + 1⟩ := by
  intro k
  induction k with
  | zero =>
    intro r attempt last v hk _ hok
    obtain ⟨r', rfl⟩ : ∃ r', r = r' + 1 := ⟨r - 1, by omega⟩
    rw [backoffGo]
    simp only [Nat.add_zero] at hok
    rw [hok]
  | succ k ih =>
    intro r attempt last v hk hfail hok
    obtain ⟨r', rfl⟩ : ∃ r', r = r' + 1 := ⟨r - 1, by omega⟩
    obtain ⟨e, he⟩ := hfail 0 (by omega)
    rw [backoffGo]
    simp only [Nat.add_zero] at he
    rw [he]
    dsimp only
    rw [if_neg (show ¬r' = 0 by omega)]
    have := ih r' (attempt + 1) (some e) v (by omega)
      (fun j hj => by
        rw [show attempt + 1 + j = attempt + (j + 1) by omega]
        exact hfail (j + 1) (by omega))
      (by rw [show attempt + 1 + k = attempt + (k + 1) by omega]; exact hok)
    simp [this]

/-- C10: `exponentialBackoff(fn, n, d)` invokes `fn` at most
`max n 0` (`Int.toNat n`) times; for `n ≤ 0` the loop body never runs and
the function throws the uninitialized `error` local (`undefined`,
modelled as `none`) without invoking `fn`. -/
theorem c10_backoff_call_bound (E T : Type) (fn : Nat → Except E T) (n : Int) (d : Nat) :
    (exponentialBackoff fn n d).calls ≤ n.toNat
    ∧ (n ≤ 0 → exponentialBackoff fn n d = ⟨.error none, 0⟩) := by
  constructor
  · exact backoffGo_calls_le fn n.toNat 0 none
  · intro hn
    have h0 : n.toNat = 0 := Int.toNat_of_nonpos hn
    simp [exponentialBackoff, h0, backoffGo]

theorem c10_witness :
    (exponentialBackoff (fun _ => (.ok 0 : Except String Nat)) (-1) 500).calls ≤ Int.toNat (-1)
    ∧ exponentialBackoff (fun _ => (.ok 0 : Except String Nat)) (-1) 500
        = ⟨.error none, 0⟩ := by
  have h := c10_backoff_call_bound String Nat (fun _ => .ok 0) (-1) 500
  exact ⟨h.1, h.2 (by omega)⟩

/-- Source `loadNextPage(i)` from `src/arbeitsagentur-crawler.ts`: clicks the
load-more button and polls for row `i` inside
`exponentialBackoff(fn, 5, 5000)`; returns `true` on success, `false` on
any raised error.  The click-and-poll body is modelled by an environment
giving the outcome of its `k`-th invocation; the returned `Nat` records
how many times the body ran. -/
def loadNextPage (env : Nat → Except String Unit) : Bool × Nat :=
  let r := exponentialBackoff env 5 5000
  match r.result with
  | .ok _ => (true, r.calls)
  | .error _ => (false, r.calls)

/-- C6: When all 5 attempts of the click-and-poll fail, `loadNextPage`
returns `false` (it catches the exhaustion error rather than raising);
it returns `true` as soon as one attempt succeeds, performing no further
attempts. -/
theorem c6_loadNextPage_exhaustion (env : Nat → Except String Unit) :
    ((∀ k < 5, ∃ e, env k = .error e) → loadNextPage env = (false, 5))
    ∧ (∀ k < 5, (∀ j < k, ∃ e, env j = .error e) → env k = .ok () →
        loadNextPage env = (true, k + 1)) := by
  constructor
  · intro hfail
    obtain ⟨e', he'⟩ := backoffGo_exhaust env 5 0 none (by omega)
      (fun j hj => by simpa using hfail j hj)
    simp [loadNextPage, exponentialBackoff, he']
  · intro k hk hfail hok
    have h := backoffGo_first_success env k 5 0 none () hk
      (fun j hj => by simpa using hfail j hj) (by simpa using hok)
    simp [loadNextPage, exponentialBackoff, h]

/-- Concrete witness for C6: a poll that never reveals the row. -/
def envC6 : Nat → Except String Unit := fun _ => .error "waitUntil timed out"

theorem c6_witness : loadNextPage envC6 = (false, 5) :=
  (c6_loadNextPage_exhaustion envC6).1 (fun _ _ => ⟨"waitUntil timed out", rfl⟩)

/-! ## The `Posting` record and detail-page enrichment

`post_date` keeps the `(year, monthIndex, day)` components handed to
`new Date(...)`; the ISO rendering of that instant is not needed by any
claim and is abstracted as the component triple.  `company_size` is an
`Option (Option Int)`: the outer level is JS `null`, the inner level is
NaN (`none`) versus an integer value.

`findEmailInText` and `findPhoneNumberInText` are stateless parsing
helpers that the spec scopes out as black-box collaborators; enrichment
is parameterized over them (`emailFn`, `phoneFn`). -/

structure Posting where
  company_name : String
  city : String
  arbeitsagentur_id : String
  start_date : Option String
  post_date : Option (Int × Int × Int)
  raw_job_title : Option String
  postal_code : Option Nat
  street : Option String
  email : Option String
  phone : Option String
  website : Option String
  company_size : Option (Option Int)
  from_search_url : Option String := none
deriving DecidableEq, Repr

/-- The detail-page interaction for one posting: the overall outcome of
the navigation block (`goto` SPA-first with full-load fallback, inside
`exponentialBackoff(·, 2, 3000)` — `navOk = false` is the caught
`catch (e) { continue }` case), and the outcome of the `Promise.all` of
the four element reads (address, description, link, company size); a
`.error` is a read rejection caught by the extraction `catch`.  All four
reads happen before any posting field is assigned, so a rejection leaves
the posting untouched. -/
structure DetailEnv where
  navOk : Bool
  reads : Except String (Option String × Option String × Option String × Option String)

/-- JS `s.split(' ')[0]`: the characters before the first space. -/
def firstSpaceToken (s : String) : String :=
  String.mk (s.toList.takeWhile (fun c => !(c = ' ')))

/-- Enrichment of one posting inside `addCompanyData`'s per-partition
loop, given its detail-page environment. -/
def enrichPosting (emailFn phoneFn : String → Option String) (p : Posting)
    (e : DetailEnv) : Posting :=
  if e.navOk = false then p
  else
    match e.reads with
    | .error _ => p
    | .ok (address, beschreibung, link, companySize) =>
      { p with
        postal_code := jsNullish (getPostalCodeFromAddress address)
          (getPostalCodeFromAddress beschreibung),
        street := address.map (fun a => jsTrim (String.mk (beforeCommaDigits a.toList))),
        website := link,
        company_size :=
          if jsTruthy companySize then some (jsPlus (firstSpaceToken (companySize.getD "")))
          else none,
        email := if jsTruthy beschreibung then emailFn (beschreibung.getD "") else p.email,
        phone := if jsTruthy beschreibung then phoneFn (beschreibung.getD "") else p.phone }

/-- A detail env whose address read is `"Musterstr. 1, 12345 Berlin"`. -/
def envC9 : DetailEnv :=
  ⟨true, .ok (some "Musterstr. 1, 12345 Berlin", none, none, none)⟩

/-- C9: A posting enriched from the address text
`"Musterstr. 1, 12345 Berlin"` gets postal code `12345` (via
`getPostalCodeFromAddress`) and street `"Musterstr. 1"` (the address
substring before the first `", " ++ digits` token, trimmed). -/
theorem c9_address_roundtrip (emailFn phoneFn : String → Option String) (p : Posting) :
    (enrichPosting emailFn phoneFn p envC9).postal_code = some 12345
    ∧ (enrichPosting emailFn phoneFn p envC9).street = some "Musterstr. 1"
    ∧ getPostalCodeFromAddress (some "Musterstr. 1, 12345 Berlin") = some 12345 :=
  ⟨rfl, rfl, rfl⟩

/-- C8 counterexample: The claim says a non-null postal code is
strictly positive; but on the address `"00000"` the code returns the
non-null value `0`, which is not positive. -/
theorem c8_postal_code_counterexample :
    getPostalCodeFromAddress (some "00000") = some 0 ∧ ¬0 < (0 : Nat) :=
  ⟨rfl, by omega⟩

/-- C8 amended: A non-null result of `getPostalCodeFromAddress` is a
nonnegative integer below 100000, and it is zero exactly when the first
five-digit substring of the address is `00000`; consequently a crawled
posting's non-null postal code (null before enrichment, set only from
`getPostalCodeFromAddress`) is below 100000. -/
theorem c8_postal_code_amended (emailFn phoneFn : String → Option String)
    (p : Posting) (e : DetailEnv) :
    (∀ (s : String) (k : Nat), getPostalCodeFromAddress (some s) = some k →
        k < 100000 ∧ (k = 0 ↔ findFiveDigits s.toList = some (List.replicate 5 '0')))
    ∧ (∀ k : Nat, p.postal_code = none →
        (enrichPosting emailFn phoneFn p e).postal_code = some k → k < 100000) := by
  constructor
  · intro s k hk
    refine ⟨getPostalCodeFromAddress_lt _ _ hk, ?_⟩
    simp only [getPostalCodeFromAddress, Option.map_eq_some'] at hk
    obtain ⟨cs, hcs, hval⟩ := hk
    obtain ⟨hlen, hdig⟩ := findFiveDigits_spec _ _ hcs
    constructor
    · intro hk0
      have hall : ∀ c ∈ cs, c = '0' :=
        (digitsToNat_eq_zero_iff cs hdig).mp (by omega)
      have : cs = List.replicate 5 '0' :=
        List.eq_replicate_iff.mpr ⟨hlen, hall⟩
      rw [← this]
      exact hcs
    · intro hrep
      rw [hcs] at hrep
      have hcs' : cs = List.replicate 5 '0' := (Option.some.injEq _ _).mp hrep
      rw [hcs'] at hval
      have hz : digitsToNat (List.replicate 5 '0') = 0 := by decide
      omega
  · intro k hnone hk
    obtain ⟨navOk, reads⟩ := e
    rcases navOk with _ | _
    · have hp : enrichPosting emailFn phoneFn p ⟨false, reads⟩ = p := rfl
      rw [hp, hnone] at hk; cases hk
    · rcases reads with msg | quad
      · have hp : enrichPosting emailFn phoneFn p ⟨true, .error msg⟩ = p := rfl
        rw [hp, hnone] at hk; cases hk
      · obtain ⟨address, beschreibung, link, companySize⟩ := quad
        have hk' : jsNullish (getPostalCodeFromAddress address)
            (getPostalCodeFromAddress beschreibung) = some k := hk
        rcases ho : getPostalCodeFromAddress address with _ | v
        · rw [ho] at hk'
          simp only [jsNullish] at hk'
          exact getPostalCodeFromAddress_lt _ _ hk'
        · rw [ho] at hk'
          simp only [jsNullish, Option.some.injEq] at hk'
          subst hk'
          exact getPostalCodeFromAddress_lt _ _ ho

/-- A crawled posting before enrichment, for concrete witnesses. -/
def samplePosting : Posting :=
  { company_name := "ACME GmbH", city := "Berlin", arbeitsagentur_id := "10001-1234",
    start_date := none, post_date := none, raw_job_title := none, postal_code := none,
    street := none, email := none, phone := none, website := none, company_size := none }

theorem c8_witness :
    12345 < 100000
    ∧ (12345 = 0 ↔ findFiveDigits ("Musterstr. 1, 12345 Berlin").toList
        = some (List.replicate 5 '0')) :=
  (c8_postal_code_amended (fun _ => none) (fun _ => none) samplePosting
      ⟨true, .ok (none, none, none, none)⟩).1 "Musterstr. 1, 12345 Berlin" 12345 rfl

/-! ## `groupBy` partition properties -/

theorem lookup_cons_of_ne {T : Type} {k k' : Nat} (h : k' ≠ k) (b : List T)
    (es : List (Nat × List T)) :
    List.lookup k' ((k, b) :: es) = List.lookup k' es := by
  rw [List.lookup_cons]
  have hb : (k' == k) = false := by simpa using h
  rw [hb]

theorem lookup_addToGroup {T : Type} :
    ∀ (acc : List (Nat × List T)) (k k' : Nat) (x : T),
      List.lookup k' (addToGroup acc k x)
        = if k' = k then some ((List.lookup k acc).getD [] ++ [x])
          else List.lookup k' acc := by
  intro acc
  induction acc with
  | nil =>
    intro k k' x
    by_cases h : k' = k
    · subst h; simp [addToGroup]
    · rw [if_neg h, show addToGroup ([] : List (Nat × List T)) k x = [(k, [x])] from rfl,
        lookup_cons_of_ne h]
  | cons hd rest ih =>
    intro k k' x
    obtain ⟨k₀, xs⟩ := hd
    by_cases h0 : k₀ = k
    · subst h0
      have ha : addToGroup ((k₀, xs) :: rest) k₀ x = (k₀, xs ++ [x]) :: rest := by
        simp [addToGroup]
      by_cases h : k' = k₀
      · subst h
        simp [ha]
      · rw [ha, lookup_cons_of_ne h, if_neg h, lookup_cons_of_ne h]
    · simp only [addToGroup, if_neg h0]
      by_cases h1 : k' = k₀
      · subst h1
        rw [List.lookup_cons_self, if_neg h0, List.lookup_cons_self]
      · rw [lookup_cons_of_ne h1, ih]
        by_cases h : k' = k
        · rw [if_pos h, if_pos h, lookup_cons_of_ne (fun hc => h0 hc.symm)]
        · rw [if_neg h, if_neg h, lookup_cons_of_ne h1]

/-- Index-tagged view of a list, starting at index `i`.  Models JS object
identity for in-place mutation: item `xs[j]` is identified by its
position `j`. -/
def withIdx {α : Type} : List α → Nat → List (Nat × α)
  | [], _ => []
  | x :: xs, i => (i, x) :: withIdx xs (i + 1)

/-- Here `lookupExtend prev m` computes what a group's content becomes after also
pushing the items `m` (in order) onto a group that previously had content
`prev` (`none` = the key was absent). -/
def lookupExtend {T : Type} (prev : Option (List T)) (m : List T) : Option (List T) :=
  match prev with
  | some ys => some (ys ++ m)
  | none => if m.isEmpty then none else some m

theorem lookupExtend_nil {T : Type} (prev : Option (List T)) :
    lookupExtend prev [] = prev := by
  cases prev <;> simp [lookupExtend, List.isEmpty]

theorem lookup_groupByGo {T : Type} (getGroup : T → Nat → Nat) :
    ∀ (xs : List T) (i : Nat) (acc : List (Nat × List T)) (k : Nat),
      List.lookup k (groupByGo getGroup xs i acc)
        = lookupExtend (List.lookup k acc)
            (((withIdx xs i).filter (fun p => getGroup p.2 p.1 == k)).map Prod.snd) := by
  intro xs
  induction xs with
  | nil =>
    intro i acc k
    simp [groupByGo, withIdx, lookupExtend_nil]
  | cons x rest ih =>
    intro i acc k
    rw [groupByGo, ih]
    rw [lookup_addToGroup]
    by_cases h : getGroup x i = k
    · rw [if_pos (Eq.symm h), h]
      have hfilter : ((withIdx (x :: rest) i).filter (fun p => getGroup p.2 p.1 == k)).map Prod.snd
          = x :: ((withIdx rest (i + 1)).filter (fun p => getGroup p.2 p.1 == k)).map Prod.snd := by
        simp [withIdx, List.filter_cons, h]
      rw [hfilter]
      cases hprev : List.lookup k acc with
      | none => simp [lookupExtend]
      | some ys => simp [lookupExtend]
    · rw [if_neg (fun hc => h hc.symm)]
      have hfilter : ((withIdx (x :: rest) i).filter (fun p => getGroup p.2 p.1 == k)).map Prod.snd
          = ((withIdx rest (i + 1)).filter (fun p => getGroup p.2 p.1 == k)).map Prod.snd := by
        simp [withIdx, List.filter_cons, h]
      rw [hfilter]

/-- The round-robin partition property of `groupBy`: the group stored
under key `k` holds exactly the items whose key computes to `k`, in their
original order (and the key is absent exactly when no item maps to it). -/
theorem lookup_groupBy {T : Type} (getGroup : T → Nat → Nat) (xs : List T) (k : Nat) :
    List.lookup k (groupBy xs getGroup)
      = (let m := ((withIdx xs 0).filter (fun p => getGroup p.2 p.1 == k)).map Prod.snd
         if m.isEmpty then none else some m) := by
  rw [groupBy, lookup_groupByGo]
  simp [lookupExtend, List.lookup]

/-! ## Flattening `groupBy` output is a permutation of the input -/

def groupsFlatten {T : Type} (gs : List (Nat × List T)) : List T :=
  (gs.map Prod.snd).flatten

theorem groupsFlatten_addToGroup {T : Type} :
    ∀ (acc : List (Nat × List T)) (k : Nat) (x : T),
      (groupsFlatten (addToGroup acc k x)).Perm (groupsFlatten acc ++ [x]) := by
  intro acc
  induction acc with
  | nil => intro k x; simp [addToGroup, groupsFlatten]
  | cons hd rest ih =>
    intro k x
    obtain ⟨k₀, xs⟩ := hd
    by_cases h : k₀ = k
    · subst h
      have ha : addToGroup ((k₀, xs) :: rest) k₀ x = (k₀, xs ++ [x]) :: rest := by
        simp [addToGroup]
      rw [ha]
      have hp : ((xs ++ [x]) ++ (rest.map Prod.snd).flatten).Perm
          (xs ++ ((rest.map Prod.snd).flatten ++ [x])) := by
        rw [List.append_assoc]
        exact List.Perm.append_left xs List.perm_append_comm
      simpa [groupsFlatten, List.append_assoc] using hp
    · have ha : addToGroup ((k₀, xs) :: rest) k x = (k₀, xs) :: addToGroup rest k x := by
        simp [addToGroup, h]
      rw [ha]
      have := List.Perm.append_left xs (ih k x)
      simpa [groupsFlatten, List.append_assoc] using this

theorem groupsFlatten_groupByGo {T : Type} (getGroup : T → Nat → Nat) :
    ∀ (xs : List T) (i : Nat) (acc : List (Nat × List T)),
      (groupsFlatten (groupByGo getGroup xs i acc)).Perm (groupsFlatten acc ++ xs) := by
  intro xs
  induction xs with
  | nil => intro i acc; simp [groupByGo]
  | cons x rest ih =>
    intro i acc
    rw [groupByGo]
    have h1 := ih (i + 1) (addToGroup acc (getGroup x i) x)
    have h2 := List.Perm.append_right rest (groupsFlatten_addToGroup acc (getGroup x i) x)
    have h3 : (groupsFlatten acc ++ [x] ++ rest).Perm (groupsFlatten acc ++ x :: rest) := by
      simp [List.append_assoc]
    exact h1.trans (h2.trans h3)

theorem groupsFlatten_groupBy {T : Type} (getGroup : T → Nat → Nat) (xs : List T) :
    (groupsFlatten (groupBy xs getGroup)).Perm xs := by
  have := groupsFlatten_groupByGo getGroup xs 0 []
  simpa [groupsFlatten] using this

/-! ## In-place mutation of a batch, as indexed writes -/

/-- The last write to index `j` in a list of `(index, value)` writes. -/
def lastUpd {α : Type} : List (Nat × α) → Nat → Option α
  | [], _ => none
  | u :: us, j =>
    match lastUpd us j with
    | some v => some v
    | none => if u.1 = j then some u.2 else none

theorem lastUpd_mem {α : Type} :
    ∀ (us : List (Nat × α)) (j : Nat) (v : α), lastUpd us j = some v → (j, v) ∈ us := by
  intro us
  induction us with
  | nil => intro j v h; cases h
  | cons u us ih =>
    intro j v h
    rw [lastUpd] at h
    cases hl : lastUpd us j with
    | some w =>
      rw [hl] at h
      cases h
      exact List.mem_cons_of_mem u (ih j v hl)
    | none =>
      rw [hl] at h
      by_cases hj : u.1 = j
      · rw [if_pos hj] at h
        cases h
        have : u = (j, u.2) := by
          ext
          · exact hj
          · rfl
        rw [← this]
        exact List.mem_cons_self u us
      · rw [if_neg hj] at h
        cases h

theorem lastUpd_none_iff {α : Type} :
    ∀ (us : List (Nat × α)) (j : Nat), lastUpd us j = none ↔ ∀ v, (j, v) ∉ us := by
  intro us
  induction us with
  | nil => intro j; simp [lastUpd]
  | cons u us ih =>
    intro j
    rw [lastUpd]
    cases hl : lastUpd us j with
    | some w =>
      constructor
      · intro h; cases h
      · intro h
        exact absurd (List.mem_cons_of_mem u (lastUpd_mem us j w hl)) (h w)
    | none =>
      by_cases hj : u.1 = j
      · rw [if_pos hj]
        constructor
        · intro h; cases h
        · intro h
          exfalso
          apply h u.2
          have : u = (j, u.2) := by
            ext
            · exact hj
            · rfl
          rw [← this]
          exact List.mem_cons_self u us
      · rw [if_neg hj]
        constructor
        · intro _ v hv
          rcases List.mem_cons.mp hv with h' | h'
          · rw [← h'] at hj; exact hj rfl
          · exact (ih j).mp hl v h'
        · intro _; rfl

theorem foldl_set_getElem? {α : Type} :
    ∀ (us : List (Nat × α)) (l : List α) (j : Nat), (∀ u ∈ us, u.1 < l.length) →
      (us.foldl (fun acc u => acc.set u.1 u.2) l)[j]?
        = match lastUpd us j with
          | some v => some v
          | none => l[j]? := by
  intro us
  induction us with
  | nil => intro l j _; simp [lastUpd]
  | cons u us ih =>
    intro l j hus
    rw [List.foldl_cons]
    have hlen : ∀ w ∈ us, w.1 < (l.set u.1 u.2).length := by
      intro w hw
      rw [List.length_set]
      exact hus w (List.mem_cons_of_mem u hw)
    rw [ih _ j hlen, lastUpd]
    cases hl : lastUpd us j with
    | some v => rfl
    | none =>
      by_cases hj : u.1 = j
      · rw [if_pos hj]
        subst hj
        rw [List.getElem?_set]
        rw [if_pos rfl, if_pos (hus u (List.mem_cons_self u us))]
      · rw [if_neg hj]
        exact List.getElem?_set_ne hj

theorem mem_withIdx {α : Type} :
    ∀ (xs : List α) (i j : Nat) (a : α),
      ((j, a) ∈ withIdx xs i) ↔ (i ≤ j ∧ xs[j - i]? = some a) := by
  intro xs
  induction xs with
  | nil => intro i j a; simp [withIdx]
  | cons x rest ih =>
    intro i j a
    simp only [withIdx, List.mem_cons, Prod.mk.injEq, ih]
    constructor
    · rintro (⟨rfl, rfl⟩ | ⟨hle, hget⟩)
      · exact ⟨le_refl j, by simp⟩
      · refine ⟨by omega, ?_⟩
        rw [show j - i = (j - (i + 1)) + 1 by omega, List.getElem?_cons_succ]
        exact hget
    · rintro ⟨hle, hget⟩
      by_cases hji : j = i
      · subst hji
        rw [Nat.sub_self, List.getElem?_cons_zero] at hget
        exact Or.inl ⟨rfl, ((Option.some.injEq _ _).mp hget).symm⟩
      · right
        refine ⟨by omega, ?_⟩
        rw [show j - i = (j - (i + 1)) + 1 by omega, List.getElem?_cons_succ] at hget
        exact hget

/-- Replaying any permutation of the one-write-per-index list
`[(j, f xs[j])]` over `xs` yields `xs.map f`: the functional content of
"each worker mutates only the postings it owns, once". -/
theorem foldl_set_eq_map {α : Type} (f : α → α) (xs : List α) (us : List (Nat × α))
    (hperm : us.Perm ((withIdx xs 0).map (fun ip => (ip.1, f ip.2)))) :
    us.foldl (fun acc u => acc.set u.1 u.2) xs = xs.map f := by
  have hmem : ∀ (j : Nat) (q : α), (j, q) ∈ us ↔ ∃ p, xs[j]? = some p ∧ q = f p := by
    intro j q
    rw [hperm.mem_iff, List.mem_map]
    constructor
    · rintro ⟨⟨i0, p⟩, hip, heq⟩
      obtain ⟨heq1, heq2⟩ := Prod.mk.injEq .. ▸ heq
      obtain ⟨_, hget⟩ := (mem_withIdx xs 0 i0 p).mp hip
      subst heq1
      exact ⟨p, by simpa using hget, heq2.symm⟩
    · rintro ⟨p, hget, rfl⟩
      exact ⟨(j, p), (mem_withIdx xs 0 j p).mpr ⟨Nat.zero_le j, by simpa using hget⟩, rfl⟩
  have hb : ∀ u ∈ us, u.1 < xs.length := by
    intro u hu
    obtain ⟨p, hget, _⟩ := (hmem u.1 u.2).mp hu
    obtain ⟨hlt, _⟩ := List.getElem?_eq_some.mp hget
    exact hlt
  apply List.ext_getElem?
  intro j
  rw [foldl_set_getElem? us xs j hb]
  cases hl : lastUpd us j with
  | none =>
    have hnone := (lastUpd_none_iff us j).mp hl
    cases hx : xs[j]? with
    | none =>
      rw [List.getElem?_map, hx]
      rfl
    | some p => exact absurd ((hmem j (f p)).mpr ⟨p, hx, rfl⟩) (hnone (f p))
  | some v =>
    obtain ⟨p, hx, rfl⟩ := (hmem j v).mp (lastUpd_mem us j v hl)
    rw [List.getElem?_map, hx]
    rfl

/-! ## `addCompanyData` -/

/-- Source `addCompanyData(postings)` from `src/arbeitsagentur-crawler.ts`:
partitions the batch with `groupBy(postings, (_, i) => i % n)`
(`n = companyCrawlers.length`), processes each partition sequentially on
its own session (partitions interleave, but each mutates only its own
postings), and returns the same array, mutated in place.

JS object identity (several aliases of the same `Posting` object) is
modelled by tagging each posting with its position via `withIdx`; the
in-place mutations are replayed as indexed writes over the original
list.  The per-partition `requestCount` only schedules `cleanupMemory`
calls (best-effort, no observable effect on the result) and is omitted. -/
def addCompanyData (n : Nat) (emailFn phoneFn : String → Option String)
    (denv : Posting → DetailEnv) (postings : List Posting) : List Posting :=
  let grouped := groupBy (withIdx postings 0) (fun _ i => i % n)
  let updates := (grouped.map (fun g =>
      g.2.map (fun ip => (ip.1, enrichPosting emailFn phoneFn ip.2 (denv ip.2))))).flatten
  updates.foldl (fun acc u => acc.set u.1 u.2) postings

/-- The pooled, partitioned, in-place enrichment acts like an independent
per-posting map: every posting is enriched exactly once, against its own
detail environment, regardless of the pool size. -/
theorem addCompanyData_eq_map (n : Nat) (emailFn phoneFn : String → Option String)
    (denv : Posting → DetailEnv) (xs : List Posting) :
    addCompanyData n emailFn phoneFn denv xs
      = xs.map (fun p => enrichPosting emailFn phoneFn p (denv p)) := by
  apply foldl_set_eq_map
  have h1 : ((groupBy (withIdx xs 0) (fun _ i => i % n)).map (fun g =>
      g.2.map (fun ip => (ip.1, enrichPosting emailFn phoneFn ip.2 (denv ip.2))))).flatten
      = (groupsFlatten (groupBy (withIdx xs 0) (fun _ i => i % n))).map
          (fun ip => (ip.1, enrichPosting emailFn phoneFn ip.2 (denv ip.2))) := by
    rw [groupsFlatten, List.map_flatten, List.map_map]
    rfl
  rw [h1]
  exact (groupsFlatten_groupBy _ _).map _

/-- C4: Enrichment partitions the batch by position modulo the pool
size (each `groupBy` key `k` holds exactly the postings at positions
`≡ k (mod n)`, in order — for a batch of 10 over a pool of 3:
`{0,3,6,9}, {1,4,7}, {2,5,8}`), and the whole batch completes as an
independent per-posting map even when one posting's navigation fails
permanently: that posting is returned unchanged (its detail fields still
`null`) and every other posting's enrichment is unaffected. -/
theorem c4_enrichment_partition (n : Nat) (_hn : 0 < n)
    (emailFn phoneFn : String → Option String) (denv : Posting → DetailEnv)
    (xs : List Posting) :
    addCompanyData n emailFn phoneFn denv xs
      = xs.map (fun p => enrichPosting emailFn phoneFn p (denv p))
    ∧ (∀ (α : Type) (ys : List α) (k : Nat),
        List.lookup k (groupBy ys (fun _ i => i % n))
          = (let m := ((withIdx ys 0).filter (fun p => p.1 % n == k)).map Prod.snd
             if m.isEmpty then none else some m))
    ∧ groupBy (List.range 10) (fun _ i => i % 3)
        = [(0, [0, 3, 6, 9]), (1, [1, 4, 7]), (2, [2, 5, 8])]
    ∧ (∀ p : Posting, (denv p).navOk = false →
        enrichPosting emailFn phoneFn p (denv p) = p) := by
  refine ⟨addCompanyData_eq_map n emailFn phoneFn denv xs, ?_, by decide, ?_⟩
  · intro α ys k
    exact lookup_groupBy _ ys k
  · intro p h
    simp [enrichPosting, h]

theorem c4_witness :
    groupBy (List.range 10) (fun _ i => i % 3)
      = [(0, [0, 3, 6, 9]), (1, [1, 4, 7]), (2, [2, 5, 8])] :=
  (c4_enrichment_partition 3 (by omega) (fun _ => none) (fun _ => none)
      (fun _ => ⟨true, .ok (none, none, none, none)⟩) []).2.2.1

/-- The fields populated only by enrichment. -/
def nullDetailFields (p : Posting) : Prop :=
  p.postal_code = none ∧ p.street = none ∧ p.email = none ∧ p.phone = none
    ∧ p.website = none ∧ p.company_size = none

/-- C5: Any failure while enriching one posting (navigation failure
after all retries, or a rejected detail read) is caught and leaves that
posting exactly as it was — in particular its enrichment-only fields stay
`null`, never partial or garbled — and the failure never propagates past
the single posting: the batch result still has one entry per posting,
each equal to its own independent enrichment. -/
theorem c5_enrichment_failure_isolation (emailFn phoneFn : String → Option String)
    (p : Posting) (e : DetailEnv) :
    ((e.navOk = false ∨ ∃ msg, e.reads = .error msg) →
        enrichPosting emailFn phoneFn p e = p)
    ∧ (nullDetailFields p → (e.navOk = false ∨ ∃ msg, e.reads = .error msg) →
        nullDetailFields (enrichPosting emailFn phoneFn p e))
    ∧ (∀ (n : Nat) (denv : Posting → DetailEnv) (xs : List Posting) (j : Nat),
        j < xs.length →
        (addCompanyData n emailFn phoneFn denv xs).length = xs.length
        ∧ (addCompanyData n emailFn phoneFn denv xs)[j]?
            = (xs[j]?).map (fun q => enrichPosting emailFn phoneFn q (denv q))) := by
  have hfix : (e.navOk = false ∨ ∃ msg, e.reads = .error msg) →
      enrichPosting emailFn phoneFn p e = p := by
    obtain ⟨navOk, reads⟩ := e
    intro h
    rcases h with h | ⟨msg, hmsg⟩
    · have hn : navOk = false := h
      subst hn
      rfl
    · have hr : reads = .error msg := hmsg
      subst hr
      cases navOk <;> rfl
  refine ⟨hfix, fun hnull h => by rw [hfix h]; exact hnull, ?_⟩
  intro n denv xs j _
  rw [addCompanyData_eq_map]
  exact ⟨List.length_map xs _, List.getElem?_map _ xs j⟩

theorem c5_witness :
    nullDetailFields (enrichPosting (fun _ => none) (fun _ => none) samplePosting
      ⟨false, .ok (some "Musterstr. 1, 12345 Berlin", none, none, none)⟩) :=
  (c5_enrichment_failure_isolation (fun _ => none) (fun _ => none) samplePosting
      ⟨false, .ok (some "Musterstr. 1, 12345 Berlin", none, none, none)⟩).2.1
    ⟨rfl, rfl, rfl, rfl, rfl, rfl⟩ (Or.inl rfl)

/-! ## `readPostings`: the crawl orchestrator loop

The loop is modelled over an environment that presents the listing as a
list of pages (`pages`), each page a list of successfully readable rows:
the loop reads the current page row by row (`readRow i true`), then gets
an absent row (`readRow i false`), awaits the pending hand-off
(`sinkCall`, recorded at the await point, which preserves the relative
order of sink invocations and hand-off starts), closes the batch
(tagging it with the search url) and starts its enrich-and-save chain
(`startEnrich`), then paginates; pagination succeeds exactly when a next
page with at least one row exists (`loadNextPage` polls for the row at
the next index).  The initial navigations of the primary session and the
pool are assumed successful (a failure there propagates before any batch
exists).  Runs where a row read itself throws are outside this
environment (such an exception propagates out of `readPostings`). -/

inductive RunEvent
  | cleanup
  | readRow (i : Nat) (found : Bool)
  | startEnrich (k : Nat) (batch : List Posting)
  | sinkCall (k : Nat) (batch : List Posting)
  | loadPage (ok : Bool)
deriving DecidableEq, Repr

structure CrawlResult where
  count : Nat
  events : List RunEvent
deriving Repr

/-- Sets `posting.from_search_url = url` over the whole closed batch. -/
def tagBatch (url : String) (batch : List Posting) : List Posting :=
  batch.map (fun p => { p with from_search_url := some url })

/-- The `await finalizePromise` step: by the time the await returns, the
pending hand-off's sink call has been made and completed. -/
def pendingSink : Option (Nat × List Posting) → List RunEvent
  | some kb => [RunEvent.sinkCall kb.1 kb.2]
  | none => []

def readLoop (n : Nat) (emailFn phoneFn : String → Option String)
    (denv : Posting → DetailEnv) (url : String) :
    List Posting → List (List Posting) → Option (Nat × List Posting) →
      List Posting → Nat → Nat → Nat → CrawlResult
  | p :: ps, rest, pending, batch, count, lastCleanup, bIdx =>
    let needsCleanup := 50 ≤ count - lastCleanup
    let lc2 := if needsCleanup then count else lastCleanup
    let r := readLoop n emailFn phoneFn denv url ps rest pending (batch ++ [p])
      (count + 1) lc2 bIdx
    ⟨r.count, (if needsCleanup then [RunEvent.cleanup] else [])
      ++ RunEvent.readRow count true :: r.events⟩
  | [], rest, pending, batch, count, lastCleanup, bIdx =>
    let needsCleanup := 50 ≤ count - lastCleanup
    let lc2 := if needsCleanup then count else lastCleanup
    let cleanupEvs := if needsCleanup then [RunEvent.cleanup] else []
    let closed := tagBatch url batch
    let enriched := addCompanyData n emailFn phoneFn denv closed
    let hasBatch := !batch.isEmpty
    let enrichEvs := if hasBatch then [RunEvent.startEnrich bIdx closed] else []
    let pending2 := if hasBatch then some (bIdx, enriched) else none
    let bIdx2 := if hasBatch then bIdx + 1 else bIdx
    match rest with
    | q :: rest2 =>
      if q.isEmpty then
        ⟨count, cleanupEvs ++ RunEvent.readRow count false
          :: (pendingSink pending ++ enrichEvs
              ++ RunEvent.loadPage false :: pendingSink pending2)⟩
      else
        let r := readLoop n emailFn phoneFn denv url q rest2 pending2 [] count lc2 bIdx2
        ⟨r.count, cleanupEvs ++ RunEvent.readRow count false
          :: (pendingSink pending ++ enrichEvs ++ RunEvent.loadPage true :: r.events)⟩
    | [] =>
      ⟨count, cleanupEvs ++ RunEvent.readRow count false
        :: (pendingSink pending ++ enrichEvs
            ++ RunEvent.loadPage false :: pendingSink pending2)⟩
termination_by cur rest _ _ _ _ _ => (rest.length, cur.length)

/-- Source `readPostings(url, saveCallback)`: run the loop from the first page,
with no pending hand-off, empty batch, row index 0. -/
def readPostings (n : Nat) (emailFn phoneFn : String → Option String)
    (denv : Posting → DetailEnv) (url : String) (pages : List (List Posting)) :
    CrawlResult :=
  readLoop n emailFn phoneFn denv url (pages.headD []) pages.tail none [] 0 0 0

/-- One-slot pipeline automaton over the event trace: `e` = index of the
next batch whose hand-off may start, `s` = index of the next batch the
sink must receive.  `startEnrich k` requires `k = e` and `s = e` (the
previous hand-off was awaited first); `sinkCall k` requires `k = s` (the
sink receives batches in closing order); at the end of the trace `e = s`
(every started hand-off was awaited before returning). -/
def pipelineOk : List RunEvent → Nat → Nat → Bool
  | [], e, s => e == s
  | RunEvent.startEnrich k _ :: rest, e, s => (k == e) && (s == e) && pipelineOk rest (e + 1) s
  | RunEvent.sinkCall k _ :: rest, e, s => (k == s) && decide (s < e) && pipelineOk rest e (s + 1)
  | _ :: rest, e, s => pipelineOk rest e s

/-- The batches passed to the sink, in invocation order. -/
def sinkBatches (evs : List RunEvent) : List (List Posting) :=
  evs.filterMap (fun ev => match ev with
    | RunEvent.sinkCall _ b => some b
    | _ => none)

/-- The enriched batches the sink must receive for a run whose current
page still holds `cur` (with `batch` already read) and whose remaining
pages are `rest`. -/
def closedBatches (n : Nat) (emailFn phoneFn : String → Option String)
    (denv : Posting → DetailEnv) (url : String)
    (cur : List Posting) (rest : List (List Posting)) : List (List Posting) :=
  ((cur :: rest).filter (fun b => !b.isEmpty)).map
    (fun b => addCompanyData n emailFn phoneFn denv (tagBatch url b))

def pendList : Option (Nat × List Posting) → List (List Posting)
  | some kb => [kb.2]
  | none => []

theorem pipelineOk_nil (e s : Nat) : pipelineOk [] e s = (e == s) := rfl

theorem pipelineOk_cleanup (l : List RunEvent) (e s : Nat) :
    pipelineOk (RunEvent.cleanup :: l) e s = pipelineOk l e s := rfl

theorem pipelineOk_readRow (i : Nat) (b : Bool) (l : List RunEvent) (e s : Nat) :
    pipelineOk (RunEvent.readRow i b :: l) e s = pipelineOk l e s := rfl

theorem pipelineOk_loadPage (b : Bool) (l : List RunEvent) (e s : Nat) :
    pipelineOk (RunEvent.loadPage b :: l) e s = pipelineOk l e s := rfl

theorem pipelineOk_startEnrich (k : Nat) (b : List Posting) (l : List RunEvent) (e s : Nat) :
    pipelineOk (RunEvent.startEnrich k b :: l) e s
      = ((k == e) && (s == e) && pipelineOk l (e + 1) s) := rfl

theorem pipelineOk_sinkCall (k : Nat) (b : List Posting) (l : List RunEvent) (e s : Nat) :
    pipelineOk (RunEvent.sinkCall k b :: l) e s
      = ((k == s) && decide (s < e) && pipelineOk l e (s + 1)) := rfl

theorem pipelineOk_cleanup_pre (c : Prop) [Decidable c] (l : List RunEvent) (e s : Nat) :
    pipelineOk ((if c then [RunEvent.cleanup] else []) ++ l) e s = pipelineOk l e s := by
  split <;> simp [pipelineOk_cleanup]

theorem sinkBatches_nil : sinkBatches [] = [] := rfl

theorem sinkBatches_cleanup (l : List RunEvent) :
    sinkBatches (RunEvent.cleanup :: l) = sinkBatches l := rfl

theorem sinkBatches_readRow (i : Nat) (b : Bool) (l : List RunEvent) :
    sinkBatches (RunEvent.readRow i b :: l) = sinkBatches l := rfl

theorem sinkBatches_loadPage (b : Bool) (l : List RunEvent) :
    sinkBatches (RunEvent.loadPage b :: l) = sinkBatches l := rfl

theorem sinkBatches_startEnrich (k : Nat) (b : List Posting) (l : List RunEvent) :
    sinkBatches (RunEvent.startEnrich k b :: l) = sinkBatches l := rfl

theorem sinkBatches_sinkCall (k : Nat) (b : List Posting) (l : List RunEvent) :
    sinkBatches (RunEvent.sinkCall k b :: l) = b :: sinkBatches l := rfl

theorem sinkBatches_append (l₁ l₂ : List RunEvent) :
    sinkBatches (l₁ ++ l₂) = sinkBatches l₁ ++ sinkBatches l₂ :=
  List.filterMap_append l₁ l₂ _

theorem sinkBatches_cleanup_pre (c : Prop) [Decidable c] (l : List RunEvent) :
    sinkBatches ((if c then [RunEvent.cleanup] else []) ++ l) = sinkBatches l := by
  split <;> simp [sinkBatches_append, sinkBatches_cleanup, sinkBatches_nil, sinkBatches]

/-- Row-reading events (`cleanup` / `readRow`) are transparent to the
pipeline automaton and carry no sink calls. -/
def rowEvsOnly (evs : List RunEvent) : Bool :=
  evs.all (fun ev => match ev with
    | RunEvent.cleanup => true
    | RunEvent.readRow _ _ => true
    | _ => false)

theorem pipelineOk_rowEvs_pre :
    ∀ (evs : List RunEvent), rowEvsOnly evs = true →
      ∀ (l : List RunEvent) (e s : Nat), pipelineOk (evs ++ l) e s = pipelineOk l e s := by
  intro evs
  induction evs with
  | nil => intro _ l e s; rfl
  | cons ev rest ih =>
    intro h l e s
    simp only [rowEvsOnly, List.all_cons, Bool.and_eq_true] at h
    obtain ⟨h1, h2⟩ := h
    cases ev with
    | cleanup => rw [List.cons_append, pipelineOk_cleanup]; exact ih h2 l e s
    | readRow i b => rw [List.cons_append, pipelineOk_readRow]; exact ih h2 l e s
    | startEnrich k b => cases h1
    | sinkCall k b => cases h1
    | loadPage b => cases h1

theorem sinkBatches_rowEvs :
    ∀ (evs : List RunEvent), rowEvsOnly evs = true → sinkBatches evs = [] := by
  intro evs
  induction evs with
  | nil => intro _; rfl
  | cons ev rest ih =>
    intro h
    simp only [rowEvsOnly, List.all_cons, Bool.and_eq_true] at h
    obtain ⟨h1, h2⟩ := h
    cases ev with
    | cleanup => rw [sinkBatches_cleanup]; exact ih h2
    | readRow i b => rw [sinkBatches_readRow]; exact ih h2
    | startEnrich k b => cases h1
    | sinkCall k b => cases h1
    | loadPage b => cases h1

/-- Reading out the rows of the current page only accumulates the batch,
advances the index, and emits pipeline-transparent events. -/
theorem readLoop_cons_spec (n : Nat) (emailFn phoneFn : String → Option String)
    (denv : Posting → DetailEnv) (url : String) :
    ∀ (cur : List Posting) (rest : List (List Posting))
      (pending : Option (Nat × List Posting)) (batch : List Posting)
      (count lastCleanup bIdx : Nat),
      ∃ (evs : List RunEvent) (lc2 : Nat), rowEvsOnly evs = true ∧
        readLoop n emailFn phoneFn denv url cur rest pending batch count lastCleanup bIdx
          = ⟨(readLoop n emailFn phoneFn denv url [] rest pending (batch ++ cur)
                (count + cur.length) lc2 bIdx).count,
             evs ++ (readLoop n emailFn phoneFn denv url [] rest pending (batch ++ cur)
                (count + cur.length) lc2 bIdx).events⟩ := by
  intro cur
  induction cur with
  | nil =>
    intro rest pending batch count lastCleanup bIdx
    refine ⟨[], lastCleanup, rfl, ?_⟩
    simp
  | cons p ps ih =>
    intro rest pending batch count lastCleanup bIdx
    obtain ⟨evs', lc2, hrow, heq⟩ := ih rest pending (batch ++ [p]) (count + 1)
      (if 50 ≤ count - lastCleanup then count else lastCleanup) bIdx
    refine ⟨(if 50 ≤ count - lastCleanup then [RunEvent.cleanup] else [])
      ++ RunEvent.readRow count true :: evs', lc2, ?_, ?_⟩
    · simp only [rowEvsOnly, List.all_append, List.all_cons, Bool.and_eq_true]
      refine ⟨?_, trivial, hrow⟩
      split <;> simp
    · rw [readLoop]
      rw [heq]
      have h1 : (batch ++ [p]) ++ ps = batch ++ p :: ps := (List.append_cons batch p ps).symm
      have h2 : count + 1 + ps.length = count + (p :: ps).length := by
        rw [List.length_cons]; omega
      rw [h1, h2]
      simp [List.append_assoc]

theorem readLoop_nil_nil (n : Nat) (emailFn phoneFn : String → Option String)
    (denv : Posting → DetailEnv) (url : String)
    (pending : Option (Nat × List Posting)) (batch : List Posting)
    (count lastCleanup bIdx : Nat) :
    readLoop n emailFn phoneFn denv url [] [] pending batch count lastCleanup bIdx
      = ⟨count, (if 50 ≤ count - lastCleanup then [RunEvent.cleanup] else [])
          ++ RunEvent.readRow count false
            :: (pendingSink pending
              ++ (if !batch.isEmpty then [RunEvent.startEnrich bIdx (tagBatch url batch)]
                  else [])
              ++ RunEvent.loadPage false
                :: pendingSink (if !batch.isEmpty
                    then some (bIdx, addCompanyData n emailFn phoneFn denv (tagBatch url batch))
                    else none))⟩ := by
  rw [readLoop]

theorem readLoop_nil_cons (n : Nat) (emailFn phoneFn : String → Option String)
    (denv : Posting → DetailEnv) (url : String)
    (pending : Option (Nat × List Posting)) (batch : List Posting)
    (count lastCleanup bIdx : Nat) (q : List Posting) (rest2 : List (List Posting))
    (hq : q.isEmpty = false) :
    readLoop n emailFn phoneFn denv url [] (q :: rest2) pending batch count lastCleanup bIdx
      = ⟨(readLoop n emailFn phoneFn denv url q rest2
            (if !batch.isEmpty
              then some (bIdx, addCompanyData n emailFn phoneFn denv (tagBatch url batch))
              else none)
            [] count (if 50 ≤ count - lastCleanup then count else lastCleanup)
            (if !batch.isEmpty then bIdx + 1 else bIdx)).count,
         (if 50 ≤ count - lastCleanup then [RunEvent.cleanup] else [])
          ++ RunEvent.readRow count false
            :: (pendingSink pending
              ++ (if !batch.isEmpty then [RunEvent.startEnrich bIdx (tagBatch url batch)]
                  else [])
              ++ RunEvent.loadPage true
                :: (readLoop n emailFn phoneFn denv url q rest2
                    (if !batch.isEmpty
                      then some (bIdx, addCompanyData n emailFn phoneFn denv (tagBatch url batch))
                      else none)
                    [] count (if 50 ≤ count - lastCleanup then count else lastCleanup)
                    (if !batch.isEmpty then bIdx + 1 else bIdx)).events)⟩ := by
  rw [readLoop]
  rw [if_neg (by simp [hq])]

theorem readLoop_spec (n : Nat) (emailFn phoneFn : String → Option String)
    (denv : Posting → DetailEnv) (url : String) :
    ∀ (rest : List (List Posting)), (∀ q ∈ rest, q ≠ []) →
      ∀ (cur : List Posting) (pending : Option (Nat × List Posting))
        (batch : List Posting) (count lastCleanup bIdx s : Nat),
        (pending = none ∧ s = bIdx
          ∨ ∃ kb, pending = some kb ∧ s = kb.1 ∧ bIdx = kb.1 + 1) →
        (readLoop n emailFn phoneFn denv url cur rest pending batch count
            lastCleanup bIdx).count
            = count + cur.length + (rest.map List.length).sum
        ∧ pipelineOk (readLoop n emailFn phoneFn denv url cur rest pending batch count
            lastCleanup bIdx).events bIdx s = true
        ∧ sinkBatches (readLoop n emailFn phoneFn denv url cur rest pending batch count
            lastCleanup bIdx).events
            = pendList pending
              ++ closedBatches n emailFn phoneFn denv url (batch ++ cur) rest := by
  intro rest
  induction rest with
  | nil =>
    intro _ cur pending batch count lastCleanup bIdx s hps
    obtain ⟨evs, lc2, hrow, heq⟩ := readLoop_cons_spec n emailFn phoneFn denv url cur []
      pending batch count lastCleanup bIdx
    rw [heq, readLoop_nil_nil]
    dsimp only
    refine ⟨by simp, ?_, ?_⟩
    · rw [pipelineOk_rowEvs_pre evs hrow, pipelineOk_cleanup_pre, pipelineOk_readRow]
      rcases hps with ⟨hpn, hs⟩ | ⟨kb, hpk, hs1, hs2⟩
      · subst hpn; subst hs
        by_cases hb : (batch ++ cur).isEmpty
        · simp [pendingSink, hb, pipelineOk_loadPage, pipelineOk_nil]
        · simp [pendingSink, hb, pipelineOk_loadPage, pipelineOk_nil,
            pipelineOk_startEnrich, pipelineOk_sinkCall, Nat.lt_succ_self]
      · subst hpk; subst hs1; subst hs2
        by_cases hb : (batch ++ cur).isEmpty
        · simp [pendingSink, hb, pipelineOk_loadPage, pipelineOk_nil,
            pipelineOk_sinkCall, Nat.lt_succ_self]
        · simp [pendingSink, hb, pipelineOk_loadPage, pipelineOk_nil,
            pipelineOk_startEnrich, pipelineOk_sinkCall, Nat.lt_succ_self]
    · rw [sinkBatches_append, sinkBatches_rowEvs evs hrow, List.nil_append,
        sinkBatches_cleanup_pre, sinkBatches_readRow]
      rcases hps with ⟨hpn, _⟩ | ⟨kb, hpk, _, _⟩
      · subst hpn
        by_cases hb : (batch ++ cur).isEmpty
        · simp [pendingSink, pendList, hb, closedBatches, sinkBatches_append,
            sinkBatches_loadPage, sinkBatches_nil, sinkBatches_sinkCall,
            List.filter_cons, List.isEmpty_iff.mp hb]
        · simp [pendingSink, pendList, hb, closedBatches, sinkBatches_append,
            sinkBatches_loadPage, sinkBatches_nil, sinkBatches_sinkCall,
            sinkBatches_startEnrich, List.filter_cons]
      · subst hpk
        by_cases hb : (batch ++ cur).isEmpty
        · simp [pendingSink, pendList, hb, closedBatches, sinkBatches_append,
            sinkBatches_loadPage, sinkBatches_nil, sinkBatches_sinkCall,
            List.filter_cons, List.isEmpty_iff.mp hb]
        · simp [pendingSink, pendList, hb, closedBatches, sinkBatches_append,
            sinkBatches_loadPage, sinkBatches_nil, sinkBatches_sinkCall,
            sinkBatches_startEnrich, List.filter_cons]
  | cons q rest2 ih =>
    intro hrest cur pending batch count lastCleanup bIdx s hps
    have hq : q ≠ [] := hrest q (List.mem_cons_self q rest2)
    have hqe : q.isEmpty = false := by
      cases q with
      | nil => exact absurd rfl hq
      | cons a as => rfl
    have hrest2 : ∀ q' ∈ rest2, q' ≠ [] := fun q' hq' => hrest q' (List.mem_cons_of_mem q hq')
    obtain ⟨evs, lc2, hrow, heq⟩ := readLoop_cons_spec n emailFn phoneFn denv url cur
      (q :: rest2) pending batch count lastCleanup bIdx
    rw [heq, readLoop_nil_cons n emailFn phoneFn denv url pending (batch ++ cur)
      (count + cur.length) lc2 bIdx q rest2 hqe]
    dsimp only
    have hIH := ih hrest2 q
      (if !(batch ++ cur).isEmpty
        then some (bIdx, addCompanyData n emailFn phoneFn denv (tagBatch url (batch ++ cur)))
        else none)
      [] (count + cur.length)
      (if 50 ≤ count + cur.length - lc2 then count + cur.length else lc2)
      (if !(batch ++ cur).isEmpty then bIdx + 1 else bIdx) bIdx
      (by
        by_cases hb : (batch ++ cur).isEmpty
        · left
          simp [hb]
        · right
          exact ⟨(bIdx, addCompanyData n emailFn phoneFn denv (tagBatch url (batch ++ cur))),
            by simp [hb], by simp [hb], by simp [hb]⟩)
    obtain ⟨hcount, hpipe, hsink⟩ := hIH
    refine ⟨?_, ?_, ?_⟩
    · rw [hcount]
      simp [List.length_nil]
      omega
    · rw [pipelineOk_rowEvs_pre evs hrow, pipelineOk_cleanup_pre, pipelineOk_readRow]
      rcases hps with ⟨hpn, hs⟩ | ⟨kb, hpk, hs1, hs2⟩
      · subst hpn; subst hs
        by_cases hb : (batch ++ cur).isEmpty
        · simp [hb] at hpipe ⊢
          simp [pendingSink, pipelineOk_loadPage, hpipe]
        · simp [hb] at hpipe ⊢
          simp [pendingSink, pipelineOk_loadPage, pipelineOk_startEnrich, hpipe]
      · subst hpk; subst hs1; subst hs2
        by_cases hb : (batch ++ cur).isEmpty
        · simp [hb] at hpipe ⊢
          simp [pendingSink, pipelineOk_loadPage, pipelineOk_sinkCall, hpipe,
            Nat.lt_succ_self]
        · simp [hb] at hpipe ⊢
          simp [pendingSink, pipelineOk_loadPage, pipelineOk_startEnrich,
            pipelineOk_sinkCall, hpipe, Nat.lt_succ_self]
    · rw [sinkBatches_append, sinkBatches_rowEvs evs hrow, List.nil_append,
        sinkBatches_cleanup_pre, sinkBatches_readRow]
      rcases hps with ⟨hpn, _⟩ | ⟨kb, hpk, _, _⟩
      · subst hpn
        by_cases hb : (batch ++ cur).isEmpty
        · simp [hb, pendList] at hsink ⊢
          simp [pendingSink, pendList, sinkBatches_append, sinkBatches_loadPage,
            hsink, closedBatches, List.filter_cons, List.isEmpty_iff.mp hb]
        · simp [hb, pendList] at hsink ⊢
          simp [pendingSink, pendList, sinkBatches_append, sinkBatches_loadPage,
            sinkBatches_startEnrich, hsink, closedBatches, List.filter_cons, hb, hq]
      · subst hpk
        by_cases hb : (batch ++ cur).isEmpty
        · simp [hb, pendList] at hsink ⊢
          simp [pendingSink, pendList, sinkBatches_append, sinkBatches_loadPage,
            sinkBatches_sinkCall, hsink, closedBatches, List.filter_cons,
            List.isEmpty_iff.mp hb]
        · simp [hb, pendList] at hsink ⊢
          simp [pendingSink, pendList, sinkBatches_append, sinkBatches_loadPage,
            sinkBatches_sinkCall, sinkBatches_startEnrich, hsink, closedBatches,
            List.filter_cons, hb, hq]

/-- C1: In every run of `readPostings` (over a listing of pages whose
loaded pages are nonempty): the sink callback receives exactly the
non-empty closed batches, enriched and tagged, in the order the batches
were closed; the trace satisfies the one-deep pipeline discipline —
batch `k`'s hand-off starts only once every batch before `k` has been
accepted by the sink, so the sink never sees batch `N+1` before batch
`N` — and at the end of the trace every started hand-off has been
awaited (`pipelineOk` final state `e = s`); the returned count is the
total number of rows read. -/
theorem c1_readPostings_pipeline (n : Nat) (emailFn phoneFn : String → Option String)
    (denv : Posting → DetailEnv) (url : String) (pages : List (List Posting))
    (hpages : ∀ q ∈ pages.tail, q ≠ []) :
    (readPostings n emailFn phoneFn denv url pages).count = (pages.map List.length).sum
    ∧ pipelineOk (readPostings n emailFn phoneFn denv url pages).events 0 0 = true
    ∧ sinkBatches (readPostings n emailFn phoneFn denv url pages).events
        = (pages.filter (fun b => !b.isEmpty)).map
            (fun b => addCompanyData n emailFn phoneFn denv (tagBatch url b)) := by
  obtain ⟨hc, hp, hs⟩ := readLoop_spec n emailFn phoneFn denv url pages.tail hpages
    (pages.headD []) none [] 0 0 0 0 (Or.inl ⟨rfl, rfl⟩)
  refine ⟨?_, hp, ?_⟩
  · rw [show readPostings n emailFn phoneFn denv url pages
        = readLoop n emailFn phoneFn denv url (pages.headD []) pages.tail none [] 0 0 0
      from rfl, hc]
    cases pages with
    | nil => simp
    | cons p ps => simp
  · rw [show readPostings n emailFn phoneFn denv url pages
        = readLoop n emailFn phoneFn denv url (pages.headD []) pages.tail none [] 0 0 0
      from rfl, hs]
    cases pages with
    | nil => simp [closedBatches, pendList]
    | cons p ps => simp [closedBatches, pendList]

def denvW : Posting → DetailEnv := fun _ => ⟨true, .ok (none, none, none, none)⟩

theorem c1_witness :
    (readPostings 1 (fun _ => none) (fun _ => none) denvW "https://example.test"
        [[samplePosting]]).count = ([[samplePosting]].map List.length).sum
    ∧ pipelineOk (readPostings 1 (fun _ => none) (fun _ => none) denvW
        "https://example.test" [[samplePosting]]).events 0 0 = true
    ∧ sinkBatches (readPostings 1 (fun _ => none) (fun _ => none) denvW
        "https://example.test" [[samplePosting]]).events
        = ([[samplePosting]].filter (fun b => !b.isEmpty)).map
            (fun b => addCompanyData 1 (fun _ => none) (fun _ => none) denvW
              (tagBatch "https://example.test" b)) :=
  c1_readPostings_pipeline 1 (fun _ => none) (fun _ => none) denvW "https://example.test"
    [[samplePosting]] (fun q hq => absurd hq (List.not_mem_nil q))

/-! ## `readArbeitsagenturPosting`: reading one listing row

The listing page DOM is an environment mapping element ids to their
text (`getTextWithId` — `none` when the element is absent), title
attribute (`getTitleAttrWithId`), anchor href (`getLinkItem` +
`evaluate(el.href)` — `none` when the anchor is absent, which makes
`getLinkItem` throw), and the number of DOM ancestors above the row
anchor (`deleteOuterElement(item, 2)` throws when fewer than 2). -/

structure PageEnv where
  text : String → Option String
  titleAttr : String → Option String
  linkHref : String → Option String
  linkAncestors : String → Nat

/-- JS `url.split('/').pop()`: the substring after the last `/` (the
whole string when there is none). -/
def lastSlashSegment (s : String) : String :=
  String.mk ((s.toList.reverse.takeWhile (fun c => !(c = '/'))).reverse)

def readArbeitsagenturPosting (env : PageEnv) (i : Nat) : Except String (Option Posting) :=
  match env.text ("eintrag-" ++ toString i ++ "-firma") with
  | none => .ok none
  | some companyName =>
    let jobName := env.text ("eintrag-" ++ toString i ++ "-beruf")
    let companyLocation := env.text ("eintrag-" ++ toString i ++ "-arbeitsort")
    let startDate := env.text ("eintrag-" ++ toString i ++ "-eintrittsdatum")
    let postDate := env.titleAttr ("eintrag-" ++ toString i ++ "-veroeffentlichungsdatum")
    let cleanPostDate :=
      if jsTruthy postDate then
        some (replaceOnce (postDate.getD "") "Veröffentlichungsdatum: " "")
      else none
    match env.linkHref ("ergebnisliste-item-" ++ toString i) with
    | none => .error ("Link with selector ergebnisliste-item-" ++ toString i ++ " not found")
    | some linkUrl =>
      if env.linkAncestors ("ergebnisliste-item-" ++ toString i) < 2 then
        .error "Parent element not found"
      else
        let id := lastSlashSegment linkUrl
        match companyLocation with
        | none => .error "TypeError: Cannot read properties of undefined (reading replace)"
        | some loc =>
          let pd : Option (Option (Int × Int × Int)) :=
            match cleanPostDate with
            | none => some none
            | some c =>
              if c = "" then some none
              else
                match jsPlus (jsSlice c 6 10), jsPlus (jsSlice c 3 5), jsPlus (jsSlice c 0 2) with
                | some y, some m, some d => some (some (y, m - 1, d))
                | _, _, _ => none
          match pd with
          | none => .error "RangeError: Invalid time value"
          | some post_date =>
            .ok (some
              { company_name := jsTrim (replaceOnce companyName "Arbeitgeber:\n" ""),
                city := jsTrim (replaceOnce loc "Arbeitsort:\n" ""),
                arbeitsagentur_id := id,
                start_date := startDate.map jsTrim,
                post_date := post_date,
                raw_job_title := jobName.map (fun j => replaceOnce j "Berufsbezeichnung:\n" ""),
                postal_code := none, street := none, email := none, phone := none,
                website := none, company_size := none })

/-- The publication-date title either is falsy or carries parseable
`dd.mm.yyyy` slices (so `new Date(...).toISOString()` does not throw). -/
def dateParses (t : Option String) : Prop :=
  if jsTruthy t then
    (replaceOnce (t.getD "") "Veröffentlichungsdatum: " "") = ""
    ∨ ((jsPlus (jsSlice (replaceOnce (t.getD "") "Veröffentlichungsdatum: " "") 6 10)).isSome = true
        ∧ (jsPlus (jsSlice (replaceOnce (t.getD "") "Veröffentlichungsdatum: " "") 3 5)).isSome = true
        ∧ (jsPlus (jsSlice (replaceOnce (t.getD "") "Veröffentlichungsdatum: " "") 0 2)).isSome = true)
  else True

instance (t : Option String) : Decidable (dateParses t) := by
  unfold dateParses
  infer_instance

/-- Row `i` is fully present and well-formed: company name and location
text, the row anchor with at least two ancestors, and a parseable (or
falsy) publication-date title. -/
def rowComplete (env : PageEnv) (i : Nat) : Prop :=
  (env.text ("eintrag-" ++ toString i ++ "-firma")).isSome = true
  ∧ (env.text ("eintrag-" ++ toString i ++ "-arbeitsort")).isSome = true
  ∧ (env.linkHref ("ergebnisliste-item-" ++ toString i)).isSome = true
  ∧ 2 ≤ env.linkAncestors ("ergebnisliste-item-" ++ toString i)
  ∧ dateParses (env.titleAttr ("eintrag-" ++ toString i ++ "-veroeffentlichungsdatum"))

/-- C7: In a listing holding complete rows `0..N-1`, reading each of
those indices succeeds with a posting, and reading index `N` returns the
"absent" sentinel (`ok none`) without raising; in general,
`readArbeitsagenturPosting` returns the absent sentinel exactly when the
row's company-name element is missing. -/
theorem c7_read_posting_absent (env : PageEnv) (N : Nat)
    (hrows : ∀ i < N, rowComplete env i)
    (habsent : env.text ("eintrag-" ++ toString N ++ "-firma") = none) :
    (∀ i < N, ∃ p, readArbeitsagenturPosting env i = .ok (some p))
    ∧ readArbeitsagenturPosting env N = .ok none
    ∧ (∀ i, readArbeitsagenturPosting env i = .ok none
        ↔ env.text ("eintrag-" ++ toString i ++ "-firma") = none) := by
  refine ⟨?_, by simp [readArbeitsagenturPosting, habsent], ?_⟩
  · intro i hi
    obtain ⟨hf, ho, hl, ha, hd⟩ := hrows i hi
    rw [Option.isSome_iff_exists] at hf ho hl
    obtain ⟨companyName, hf⟩ := hf
    obtain ⟨loc, ho⟩ := ho
    obtain ⟨linkUrl, hl⟩ := hl
    rw [readArbeitsagenturPosting]
    rw [hf, hl, ho]
    dsimp only
    rw [if_neg (by omega)]
    by_cases hjt : jsTruthy (env.titleAttr ("eintrag-" ++ toString i ++ "-veroeffentlichungsdatum"))
    · simp only [dateParses, if_pos hjt] at hd
      rw [if_pos hjt]
      dsimp only
      rcases hd with hd | ⟨hy, hm, hdd⟩
      · rw [if_pos hd]
        exact ⟨_, rfl⟩
      · rw [Option.isSome_iff_exists] at hy hm hdd
        obtain ⟨y, hy⟩ := hy
        obtain ⟨m, hm⟩ := hm
        obtain ⟨d, hdd⟩ := hdd
        by_cases hce : replaceOnce
            ((env.titleAttr ("eintrag-" ++ toString i ++ "-veroeffentlichungsdatum")).getD "")
            "Veröffentlichungsdatum: " "" = ""
        · rw [if_pos hce]
          exact ⟨_, rfl⟩
        · rw [if_neg hce, hy, hm, hdd]
          exact ⟨_, rfl⟩
    · rw [if_neg hjt]
      exact ⟨_, rfl⟩
  · intro i
    constructor
    · intro hc
      cases hft : env.text ("eintrag-" ++ toString i ++ "-firma") with
      | none => rfl
      | some c =>
        exfalso
        rw [readArbeitsagenturPosting, hft] at hc
        dsimp only at hc
        split at hc
        · cases hc
        · split at hc
          · cases hc
          · split at hc
            · cases hc
            · split at hc
              · cases hc
              · simp at hc
    · intro hnone
      simp [readArbeitsagenturPosting, hnone]

/-- A one-row listing for the C7 witness. -/
def envC7 : PageEnv :=
  { text := fun id =>
      if id = "eintrag-0-firma" then some "Arbeitgeber:\nACME GmbH"
      else if id = "eintrag-0-beruf" then some "Berufsbezeichnung:\nBäcker"
      else if id = "eintrag-0-arbeitsort" then some "Arbeitsort:\nBerlin"
      else if id = "eintrag-0-eintrittsdatum" then some " 01.09.2024 "
      else none,
    titleAttr := fun id =>
      if id = "eintrag-0-veroeffentlichungsdatum" then
        some "Veröffentlichungsdatum: 05.08.2024"
      else none,
    linkHref := fun id =>
      if id = "ergebnisliste-item-0" then
        some "https://www.arbeitsagentur.de/jobsuche/jobdetail/10001-1234"
      else none,
    linkAncestors := fun id => if id = "ergebnisliste-item-0" then 2 else 0 }

theorem c7_witness :
    (∀ i < 1, ∃ p, readArbeitsagenturPosting envC7 i = .ok (some p))
    ∧ readArbeitsagenturPosting envC7 1 = .ok none
    ∧ (∀ i, readArbeitsagenturPosting envC7 i = .ok none
        ↔ envC7.text ("eintrag-" ++ toString i ++ "-firma") = none) :=
  c7_read_posting_absent envC7 1
    (by
      intro i hi
      interval_cases i
      exact ⟨by decide, by decide, by decide, by decide, by decide⟩)
    (by decide)

end ArbeitsamtScraper
